import Mathlib

/-!
# wfh: date resolution and credential bootstrap

A shallow embedding of `wfh.go`.  The program leans on Go's `time` package
(`time.Now`, `Time.AddDate`, `Time.Weekday`, `Time.IsZero`, `Time.Format`), so
the part of that package the program exercises is embedded first, following
the package's own algorithms; the program's functions come after it.

Go's `int`, `int64` and `uint64` are embedded as `Int`: for every instant the
system clock can report the package's arithmetic stays inside 64 bits, so no
wrap-around is modelled.  Go strings are `String`s, handled through their
character lists; every string the program touches is ASCII, so bytes and
characters coincide.
-/

namespace Wfh

/-! ## Package `time`: constants -/

def secondsPerMinute : Int := 60
def secondsPerHour : Int := 60 * secondsPerMinute
def secondsPerDay : Int := 24 * secondsPerHour
def secondsPerWeek : Int := 7 * secondsPerDay
def daysPer400Years : Int := 365 * 400 + 97
def daysPer100Years : Int := 365 * 100 + 24
def daysPer4Years : Int := 365 * 4 + 1

/-- The year of the zero of the absolute time scale (a multiple of 400 plus 1). -/
def absoluteZeroYear : Int := -292277022399

/-- Seconds from the absolute zero to the zero `Time` (1 January of year 1). -/
def absoluteToInternal : Int := -9223371966579724800
def internalToAbsolute : Int := -absoluteToInternal

/-- Seconds from the zero `Time` to the Unix epoch. -/
def unixToInternal : Int := (1969 * 365 + 1969 / 4 - 1969 / 100 + 1969 / 400) * secondsPerDay
def internalToUnix : Int := -unixToInternal

/-- The least and greatest `int64`, the open ends of a zone's validity. -/
def alpha : Int := -(2 ^ 63)
def omegaEnd : Int := 2 ^ 63 - 1

/-! ## Package `time`: locations -/

/-- One entry of a location's transition table: from instant `when` (Unix
seconds) on, local time is UTC plus `offset` seconds.  Go stores an index into
a zone table where this structure stores the zone's offset itself. -/
structure zoneTrans where
  when : Int
  offset : Int
deriving DecidableEq, Repr

/-- A time zone: the offset in force before the first transition and the
transitions in increasing order of `when`.  UTC is `⟨0, []⟩`. -/
structure Location where
  first : Int
  tx : List zoneTrans
deriving DecidableEq, Repr

def UTC : Location := ⟨0, []⟩

/-- Scan of the transition table: the entry with the largest `when <= sec`.
Go finds it by binary search; on a table in increasing order the scan returns
the same entry.  The result is `(offset, start, end)`. -/
def lookupFrom (offset start : Int) : List zoneTrans → Int → Int × Int × Int
  | [], _ => (offset, start, omegaEnd)
  | tr :: rest, sec =>
    if sec < tr.when then (offset, start, tr.when)
    else lookupFrom tr.offset tr.when rest sec

/-- `(*Location).lookup`: the zone in force at Unix instant `sec`, as
`(offset, start, end)` with `start <= sec < end` the zone's validity. -/
def Location.lookup (l : Location) (sec : Int) : Int × Int × Int :=
  lookupFrom l.first alpha l.tx sec

/-! ## Package `time`: instants -/

/-- A `time.Time`: seconds since 1 January of year 1 UTC, nanoseconds within
the second, and the location the instant is displayed in. -/
structure Time where
  sec : Int
  nsec : Int
  loc : Location
deriving DecidableEq, Repr

/-- The zero value `time.Time{}`. -/
def Time.zero : Time := ⟨0, 0, UTC⟩

def Time.unixSec (t : Time) : Int := t.sec + internalToUnix

/-- `unixTime(sec, nsec)`: the `Time` of a Unix instant. -/
def unixTime (sec nsec : Int) (loc : Location) : Time := ⟨sec + unixToInternal, nsec, loc⟩

/-- `Time.IsZero`. -/
def Time.IsZero (t : Time) : Bool := t.sec == 0 && t.nsec == 0

/-- `Time.abs`: the local wall clock as seconds on the absolute scale. -/
def Time.abs (t : Time) : Int :=
  let sec := t.unixSec
  let offset := (t.loc.lookup sec).1
  sec + offset + (unixToInternal + internalToAbsolute)

def isLeap (year : Int) : Bool :=
  year % 4 == 0 && (year % 100 != 0 || year % 400 == 0)

/-- Table `daysBefore`: `daysBefore m` is the number of days in a non-leap
year before month `m + 1` starts. -/
def daysBefore : Int → Int
  | 0 => 0
  | 1 => 31
  | 2 => 31 + 28
  | 3 => 31 + 28 + 31
  | 4 => 31 + 28 + 31 + 30
  | 5 => 31 + 28 + 31 + 30 + 31
  | 6 => 31 + 28 + 31 + 30 + 31 + 30
  | 7 => 31 + 28 + 31 + 30 + 31 + 30 + 31
  | 8 => 31 + 28 + 31 + 30 + 31 + 30 + 31 + 31
  | 9 => 31 + 28 + 31 + 30 + 31 + 30 + 31 + 31 + 30
  | 10 => 31 + 28 + 31 + 30 + 31 + 30 + 31 + 31 + 30 + 31
  | 11 => 31 + 28 + 31 + 30 + 31 + 30 + 31 + 31 + 30 + 31 + 30
  | _ => 31 + 28 + 31 + 30 + 31 + 30 + 31 + 31 + 30 + 31 + 30 + 31

/-- `absDate(abs, false)`: the year and the day within the year (0 is
1 January), the part of `absDate` before the test of `full`. -/
def yearDay (abs : Int) : Int × Int :=
  -- Split into time and day.
  let d := abs / secondsPerDay
  -- Account for 400 year cycles.
  let n := d / daysPer400Years
  let y := 400 * n
  let d := d - daysPer400Years * n
  -- Cut off 100-year cycles; the last cycle has one extra leap year.
  let n := d / daysPer100Years
  let n := n - n / 4
  let y := y + 100 * n
  let d := d - daysPer100Years * n
  -- Cut off 4-year cycles.
  let n := d / daysPer4Years
  let y := y + 4 * n
  let d := d - daysPer4Years * n
  -- Cut off years within a 4-year cycle.
  let n := d / 365
  let n := n - n / 4
  let y := y + n
  let d := d - 365 * n
  (y + absoluteZeroYear, d)

/-- `absDate(abs, true)`: year, month (1..12) and day of the month of an
absolute time. -/
def absDate (abs : Int) : Int × Int × Int :=
  let (year, yday) := yearDay abs
  let day := yday
  if isLeap year && day == 31 + 29 - 1 then (year, 2, 29)
  else
    let day := if isLeap year && day > 31 + 29 - 1 then day - 1 else day
    -- Estimate month on assumption that every month has 31 days.
    let month := day / 31
    let endd := daysBefore (month + 1)
    if day >= endd then (year, month + 1 + 1, day - endd + 1)
    else (year, month + 1, day - daysBefore month + 1)

/-- `Time.Date`. -/
def Time.Date (t : Time) : Int × Int × Int := absDate t.abs

/-- `absClock`: hour, minute and second within the day. -/
def absClock (abs : Int) : Int × Int × Int :=
  let sec := abs % secondsPerDay
  let hour := sec / secondsPerHour
  let sec := sec - hour * secondsPerHour
  let min := sec / secondsPerMinute
  let sec := sec - min * secondsPerMinute
  (hour, min, sec)

/-- `Time.Clock`. -/
def Time.Clock (t : Time) : Int × Int × Int := absClock t.abs

/-- `absWeekday`: 0 is Sunday; day 0 of the absolute scale was a Monday. -/
def absWeekday (abs : Int) : Int :=
  let sec := (abs + 1 * secondsPerDay) % secondsPerWeek
  sec / secondsPerDay

/-- `Time.Weekday`. -/
def Time.Weekday (t : Time) : Int := absWeekday t.abs

/-- `Weekday.String`: the English name of the day. -/
def Weekday.String : Int → String
  | 0 => "Sunday"
  | 1 => "Monday"
  | 2 => "Tuesday"
  | 3 => "Wednesday"
  | 4 => "Thursday"
  | 5 => "Friday"
  | 6 => "Saturday"
  | _ => "%!Weekday"

/-- `norm(hi, lo, base)`: carry `lo` into `hi` until `0 <= lo < base`. -/
def norm (hi lo base : Int) : Int × Int :=
  let (hi, lo) :=
    if lo < 0 then
      let n := (-lo - 1) / base + 1
      (hi - n, lo + n * base)
    else (hi, lo)
  if lo >= base then
    let n := lo / base
    (hi + n, lo - n * base)
  else (hi, lo)

/-- `time.Date`: the instant whose wall clock in `loc` reads the given
fields, each field normalised into range first.  A wall clock reading that a
forward jump of local time skips has no instant; the instant returned then
reads correctly in one of the two zones around the jump. -/
def Date (year month day hour min sec nsec : Int) (loc : Location) : Time :=
  -- Normalize month, overflowing into year.
  let m := month - 1
  let ym := norm year m 12
  let year := ym.1
  let month := ym.2 + 1
  -- Normalize nsec, sec, min, hour, overflowing into day.
  let sn := norm sec nsec 1000000000
  let nsec := sn.2
  let ms := norm min sn.1 60
  let sec := ms.2
  let hm := norm hour ms.1 60
  let min := hm.2
  let dh := norm day hm.1 24
  let day := dh.1
  let hour := dh.2
  let y := year - absoluteZeroYear
  -- Add in days from 400-year cycles.
  let n := y / 400
  let y := y - 400 * n
  let d := daysPer400Years * n
  -- Add in 100-year cycles.
  let n := y / 100
  let y := y - 100 * n
  let d := d + daysPer100Years * n
  -- Add in 4-year cycles.
  let n := y / 4
  let y := y - 4 * n
  let d := d + daysPer4Years * n
  -- Add in non-leap years.
  let n := y
  let d := d + 365 * n
  -- Add in days before this month.
  let d := d + daysBefore (month - 1)
  let d := if isLeap year && month >= 3 then d + 1 else d
  -- Add in days before today.
  let d := d + (day - 1)
  -- Add in time elapsed today.
  let abs := d * secondsPerDay
  let abs := abs + (hour * secondsPerHour + min * secondsPerMinute + sec)
  let unix := abs + (absoluteToInternal + internalToUnix)
  -- Look for zone offset for expected time, so we can adjust to UTC.
  let zone := loc.lookup unix
  let offset := zone.1
  let start := zone.2.1
  let endd := zone.2.2
  let unix :=
    if offset != 0 then
      let utc := unix - offset
      -- If utc is valid for the zone found, the offset is right; if not,
      -- the offset in force at utc is taken.
      let offset := if utc < start || utc >= endd then (loc.lookup utc).1 else offset
      unix - offset
    else unix
  unixTime unix nsec loc

/-- `Time.AddDate`. -/
def Time.AddDate (t : Time) (years months days : Int) : Time :=
  let date := t.Date
  let clock := t.Clock
  Wfh.Date (date.1 + years) (date.2.1 + months) (date.2.2 + days)
    clock.1 clock.2.1 clock.2.2 t.nsec t.loc

/-- The zone offset in force at the instant, as `Time.locabs` returns it. -/
def Time.offset (t : Time) : Int := (t.loc.lookup t.unixSec).1

/-! ## Package `time`: formatting -/

/-- The digit loop of `appendInt`: the decimal digits of `u`, last digit
first, pushed in front of `buf`.  The first argument bounds the number of
turns; `u` itself always suffices. -/
def appendIntLoop : Nat → Nat → List Char → List Char
  | 0, u, buf => Char.ofNat (48 + u) :: buf
  | fuel + 1, u, buf =>
    if u ≥ 10 then
      let q := u / 10
      appendIntLoop fuel q (Char.ofNat (48 + u - q * 10) :: buf)
    else Char.ofNat (48 + u) :: buf

/-- `appendInt(b, x, width)`: `x` in decimal, a minus sign first when
negative, zero-padded to at least `width` digits. -/
def appendInt (b : List Char) (x : Int) (width : Nat) : List Char :=
  let b := if x < 0 then b ++ ['-'] else b
  let u := x.natAbs
  let buf := appendIntLoop u u []
  b ++ List.replicate (width - buf.length) '0' ++ buf

/-- The pieces a layout is cut into by `nextStdChunk`, as far as the layouts
used here need them. -/
inductive Std where
  | lit (s : String)
  | stdLongYear
  | stdZeroMonth
  | stdZeroDay
  | stdHour
  | stdZeroMinute
  | stdZeroSecond
  | stdISO8601ColonTZ
deriving DecidableEq, Repr

/-- Layout `time.RFC3339`, "2006-01-02T15:04:05Z07:00", in pieces. -/
def RFC3339 : List Std :=
  [.stdLongYear, .lit "-", .stdZeroMonth, .lit "-", .stdZeroDay, .lit "T",
   .stdHour, .lit ":", .stdZeroMinute, .lit ":", .stdZeroSecond, .stdISO8601ColonTZ]

/-- The date-only layout "2006-01-02" in pieces. -/
def dateOnly : List Std :=
  [.stdLongYear, .lit "-", .stdZeroMonth, .lit "-", .stdZeroDay]

/-- One turn of the loop of `Time.AppendFormat`: the text of one piece. -/
def appendStd (t : Time) (b : List Char) : Std → List Char
  | .lit s => b ++ s.data
  | .stdLongYear => appendInt b t.Date.1 4
  | .stdZeroMonth => appendInt b t.Date.2.1 2
  | .stdZeroDay => appendInt b t.Date.2.2 2
  | .stdHour => appendInt b t.Clock.1 2
  | .stdZeroMinute => appendInt b t.Clock.2.1 2
  | .stdZeroSecond => appendInt b t.Clock.2.2 2
  | .stdISO8601ColonTZ =>
    if t.offset == 0 then b ++ ['Z']
    else
      let zone := Int.tdiv t.offset 60
      let b := if zone < 0 then b ++ ['-'] else b ++ ['+']
      let zone := if zone < 0 then -zone else zone
      let b := appendInt b (zone / 60) 2
      let b := b ++ [':']
      appendInt b (zone % 60) 2

/-- `Time.Format`. -/
def Time.Format (t : Time) (layout : List Std) : String :=
  ⟨layout.foldl (appendStd t) []⟩

/-! ## Package `strings`, slices, maps, and the ways a Go function ends -/

/-- How a Go call ends: it returns, it stops the process through
`log.Fatalf` (message on standard error, exit status 1), or it panics in the
run time (index or slice bound out of range, exit status 2). -/
inductive Result (α : Type) where
  | ok : α → Result α
  | fatal : String → Result α
  | panic : String → Result α
deriving DecidableEq, Repr

def Result.bind {α β : Type} (r : Result α) (f : α → Result β) : Result β :=
  match r with
  | .ok a => f a
  | .fatal msg => .fatal msg
  | .panic msg => .panic msg

instance : Monad Result where
  pure := Result.ok
  bind := Result.bind

/-- `strings.ToLower`, on ASCII text. -/
def strings.ToLower (s : String) : String := ⟨s.data.map Char.toLower⟩

/-- The search of `strings.Index`: `i` is the index of the head of the text
still to search. -/
def indexFrom (substr : List Char) : List Char → Int → Int
  | [], i => if substr = [] then i else -1
  | c :: cs, i => if substr.isPrefixOf (c :: cs) then i else indexFrom substr cs (i + 1)

/-- `strings.Index(s, substr)`: the index of the first instance of `substr`
in `s`, or -1 when there is none. -/
def strings.Index (s substr : String) : Int := indexFrom substr.data s.data 0

/-- The slice expression `s[:n]`; it panics unless `0 <= n <= len(s)`. -/
def sliceTo (s : String) (n : Int) : Result String :=
  if 0 ≤ n ∧ n ≤ s.length then .ok ⟨s.data.take n.toNat⟩
  else .panic "slice bounds out of range"

/-- The slice expression `a[1:]`; it panics on an empty slice. -/
def sliceFrom1 (a : List String) : Result (List String) :=
  match a with
  | [] => .panic "slice bounds out of range"
  | _ :: rest => .ok rest

/-- The index expression `a[i]`; it panics unless `0 <= i < len(a)`. -/
def indexAt (a : List String) (i : Nat) : Result String :=
  match a.get? i with
  | some s => .ok s
  | none => .panic "index out of range"

/-- A `map[string]time.Time`, as the list of its entries in order of first
insertion. -/
abbrev DayMap := List (String × Time)

/-- The assignment `m[k] = v`: a present key gets the new value, an absent
one a new entry. -/
def DayMap.set : DayMap → String → Time → DayMap
  | [], k, v => [(k, v)]
  | (k', v') :: rest, k, v =>
    if k' = k then (k, v) :: rest else (k', v') :: DayMap.set rest k v

/-- The index expression `m[k]`: the value of a present key, the zero `Time`
for an absent one. -/
def DayMap.get (m : DayMap) (k : String) : Time :=
  match m.lookup k with
  | some v => v
  | none => Time.zero

/-! ## The program: date resolution -/

/-- The body of the loop of `makeDayMap` at offset `i`. -/
def makeDayMapStep (today : Time) (dayMap : DayMap) (i : Nat) : Result DayMap := do
  let mappedTime := today.AddDate 0 0 i
  let key ← sliceTo (strings.ToLower (Weekday.String mappedTime.Weekday)) 3
  pure (dayMap.set key mappedTime)

/-- `makeDayMap`, with the reading `today` of `time.Now()` as argument: the
loop runs `i` over 0..6. -/
def makeDayMap (today : Time) : Result DayMap :=
  (List.range 7).foldlM (makeDayMapStep today) []

def dayDiagnostic : String :=
  "Your day must be any of 'sun', 'mon', 'tue', 'wed', 'thu', 'fri', or 'sat'"

/-- `getDateString`, with `os.Args` and the reading of `time.Now()` as
arguments. -/
def getDateString (osArgs : List String) (today : Time) : Result String := do
  let dayMap ← makeDayMap today
  let arg ← indexAt osArgs 1
  let yourTime := dayMap.get arg
  if yourTime.IsZero then
    Result.fatal dayDiagnostic
  else
    let timeIdx := strings.Index (yourTime.Format RFC3339) "T"
    let dateString ← sliceTo (yourTime.Format RFC3339) timeIdx
    pure dateString

/-! ## The program: the world outside and the trace of a run -/

/-- An `oauth2.Token`. -/
structure Token where
  AccessToken : String
  TokenType : String
  RefreshToken : String
  Expiry : Int
deriving DecidableEq, Repr

/-- An `oauth2.Config`, as read from the client secret file. -/
structure Config where
  ClientID : String
  ClientSecret : String
  RedirectURL : String
deriving DecidableEq, Repr

/-- The `http.Client` of `config.Client(ctx, tok)`: it authorises each request
with the token `tok` points to. -/
structure Client where
  config : Config
  tok : Option Token
deriving DecidableEq, Repr

/-- A `calendar.EventDateTime`; of its fields the program sets `Date`. -/
structure EventDateTime where
  Date : String
deriving DecidableEq, Repr

/-- A `calendar.Event`, with the fields the program sets. -/
structure CalEvent where
  Summary : String
  Location : String
  Description : String
  Start : EventDateTime
  End : EventDateTime
deriving DecidableEq, Repr

/-- Everything a run reads from outside the program.  A field of type
`Except String _` holds either the value a call returns or the text of its
error; a field of type `Option String` holds the error of a call that returns
only an error, `none` meaning success. -/
structure World where
  /-- `os.Args[0]`, the program name. -/
  arg0 : String
  /-- `os.Args[1:]`, the command line arguments. -/
  args : List String
  /-- The reading of `time.Now()`. -/
  now : Time
  /-- `ioutil.ReadFile` of a file name. -/
  readFile : String → Except String String
  /-- `google.ConfigFromJSON` of the bytes read. -/
  configFromJSON : String → Except String Config
  /-- `user.Current()`: the home directory of the user. -/
  userCurrent : Except String String
  /-- `os.MkdirAll` of a path. -/
  mkdirAll : String → Option String
  /-- `os.Open` of a file name. -/
  openFile : String → Option String
  /-- `json.NewDecoder(f).Decode(t)` of the opened file; on an error the token
  holds what was decoded until then. -/
  decode : String → Token × Option String
  /-- `config.AuthCodeURL`. -/
  authCodeURL : Config → String
  /-- `fmt.Scan(&code)`: the word read from standard input. -/
  scan : Except String String
  /-- `config.Exchange` of the code, a request to the authorisation server. -/
  exchange : Config → String → Except String Token
  /-- `os.Create` of a file name. -/
  create : String → Option String
  /-- `json.NewEncoder(f).Encode(token)` on the created file. -/
  encode : String → Token → Option String
  /-- `calendar.New(client)`. -/
  calendarNew : Client → Option String
  /-- `os.Getenv` of a variable name. -/
  getenv : String → String
  /-- `srv.Events.Insert(calendarId, event).Do()`, a request to the calendar
  service: the `HtmlLink` of the event created. -/
  insert : Client → String → CalEvent → Except String String

/-- `os.Args`. -/
def World.osArgs (w : World) : List String := w.arg0 :: w.args

/-- What a run does to the outside, in order.  `getTokenFromWeb` and
`saveToken` mark the entry into the functions of those names. -/
inductive Event where
  | readFile (name : String)
  | mkdirAll (path : String)
  | openFile (name : String)
  | print (text : String)
  | scan
  | exchange (code : String)
  | create (name : String)
  | encode (name : String) (tok : Token)
  | insert (calendarId : String) (event : CalEvent)
  | getTokenFromWeb
  | saveToken (file : String) (tok : Token)
deriving DecidableEq, Repr

/-- A request over the network: the code exchange and the event insert. -/
def Event.isNetwork : Event → Bool
  | .exchange _ => true
  | .insert _ _ => true
  | _ => false

/-- A step of the program: it extends the trace and ends as a `Result`. -/
def Prog (α : Type) : Type := List Event → List Event × Result α

def Prog.bind {α β : Type} (p : Prog α) (f : α → Prog β) : Prog β := fun tr =>
  match p tr with
  | (tr', .ok a) => f a tr'
  | (tr', .fatal msg) => (tr', .fatal msg)
  | (tr', .panic msg) => (tr', .panic msg)

instance : Monad Prog where
  pure a := fun tr => (tr, .ok a)
  bind := Prog.bind

/-- Record an event. -/
def emit (e : Event) : Prog Unit := fun tr => (tr ++ [e], .ok ())

/-- `log.Fatalf`: the process stops with the message. -/
def fatalf {α : Type} (msg : String) : Prog α := fun tr => (tr, .fatal msg)

/-- A step without effect on the outside. -/
def liftResult {α : Type} (r : Result α) : Prog α := fun tr => (tr, r)

/-- `filepath.Join` of two clean elements. -/
def filepath.Join (a b : String) : String := a ++ "/" ++ b

/-! ## The program: credentials -/

/-- `getTokenFromWeb`. -/
def getTokenFromWeb (w : World) (config : Config) : Prog Token := do
  emit .getTokenFromWeb
  let authURL := w.authCodeURL config
  emit (.print ("Go to the following link in your browser then type the " ++
    "authorization code: \n" ++ authURL ++ "\n"))
  emit .scan
  match w.scan with
  | .error err => fatalf ("Unable to read authorization code " ++ err)
  | .ok code =>
    emit (.exchange code)
    match w.exchange config code with
    | .error err => fatalf ("Unable to retrieve token from web " ++ err)
    | .ok tok => pure tok

/-- `tokenCacheFile`: the path of the credential file and the error of
`user.Current`.  The result of `os.MkdirAll` is dropped; the file name passes
`url.QueryEscape` unchanged. -/
def tokenCacheFile (w : World) : Prog (String × Option String) :=
  match w.userCurrent with
  | .error err => pure ("", some err)
  | .ok homeDir => do
    let tokenCacheDir := filepath.Join homeDir ".credentials"
    emit (.mkdirAll tokenCacheDir)
    pure (filepath.Join tokenCacheDir "calendar-go-quickstart.json", none)

/-- `tokenFromFile`: the token decoded and the error of opening or decoding;
on an open error the token is `nil`. -/
def tokenFromFile (w : World) (file : String) : Prog (Option Token × Option String) := do
  emit (.openFile file)
  match w.openFile file with
  | some err => pure (none, some err)
  | none =>
    let (t, err) := w.decode file
    pure (some t, err)

/-- `saveToken`.  The result of `Encode` is dropped. -/
def saveToken (w : World) (file : String) (token : Token) : Prog Unit := do
  emit (.saveToken file token)
  emit (.print ("Saving credential file to: " ++ file ++ "\n"))
  emit (.create file)
  match w.create file with
  | some err => fatalf ("Unable to cache oauth token: " ++ err)
  | none => emit (.encode file token)

/-- `getClient`. -/
def getClient (w : World) (config : Config) : Prog Client := do
  let (cacheFile, err) ← tokenCacheFile w
  match err with
  | some err => fatalf ("Unable to get path to cached credential file. " ++ err)
  | none =>
    let (tok, err) ← tokenFromFile w cacheFile
    match err with
    | some _ =>
      let tok ← getTokenFromWeb w config
      saveToken w cacheFile tok
      pure ⟨config, some tok⟩
    | none => pure ⟨config, tok⟩

/-- `calendarIdFromFile`. -/
def calendarIdFromFile (w : World) : String := w.getenv "PRODUCT_OOO_CALENDAR_ID"

def argsDiagnostic : String := "Must provide a day you are working from home"

/-- The event `main` builds from the date string. -/
def mkEvent (dateString : String) : CalEvent :=
  { Summary := "Max K WFH"
    Location := "Home"
    Description := "Working from home"
    Start := { Date := dateString }
    End := { Date := dateString } }

/-- `main`. -/
def main (w : World) : Prog Unit := do
  emit (.readFile "client_secret.json")
  match w.readFile "client_secret.json" with
  | .error err => fatalf ("Unable to read client secret file: " ++ err)
  | .ok b =>
    match w.configFromJSON b with
    | .error err => fatalf ("Unable to parse client secret file to config: " ++ err)
    | .ok config =>
      let client ← getClient w config
      match w.calendarNew client with
      | some err => fatalf ("Unable to retrieve calendar Client " ++ err)
      | none =>
        let args ← liftResult (sliceFrom1 w.osArgs)
        if args.length ≠ 1 then
          fatalf argsDiagnostic
        else
          let dateString ← liftResult (getDateString w.osArgs w.now)
          let event := mkEvent dateString
          let calendarId := calendarIdFromFile w
          emit (.insert calendarId event)
          match w.insert client calendarId event with
          | .error err => fatalf ("Unable to create event. " ++ err ++ "\n")
          | .ok htmlLink => emit (.print ("Event created: " ++ htmlLink ++ "\n"))

/-- A whole run: the trace and the way the process ends. -/
def run (w : World) : List Event × Result Unit := main w []

/-- The exit status of the process. -/
def exitStatus {α : Type} : Result α → Nat
  | .ok _ => 0
  | .fatal _ => 1
  | .panic _ => 2

/-! ## Sample worlds -/

def sampleToken : Token := ⟨"ya29.a0", "Bearer", "1//0g", 1725427800⟩
def sampleConfig : Config := ⟨"id.apps.googleusercontent.com", "secret", "urn:ietf:wg:oauth:2.0:oob"⟩
def cachePath : String := "/home/max/.credentials/calendar-go-quickstart.json"

/-- A first run on Wednesday 4 September 2024, 04:30 UTC: every call
succeeds, there is no token cache yet, the user types the code `4/0Ab`. -/
def firstRun (args : List String) : World :=
  { arg0 := "wfh"
    args := args
    now := unixTime 1725424200 0 UTC
    readFile := fun _ => .ok "\x7b\"installed\":\x7b\x7d\x7d"
    configFromJSON := fun _ => .ok sampleConfig
    userCurrent := .ok "/home/max"
    mkdirAll := fun _ => none
    openFile := fun _ => some "no such file or directory"
    decode := fun _ => (⟨"", "", "", 0⟩, some "EOF")
    authCodeURL := fun _ => "https://accounts.google.com/o/oauth2/auth"
    scan := .ok "4/0Ab"
    exchange := fun _ _ => .ok sampleToken
    create := fun _ => none
    encode := fun _ _ => none
    calendarNew := fun _ => none
    getenv := fun _ => "team@group.calendar.google.com"
    insert := fun _ _ _ => .ok "https://www.google.com/calendar/event?eid=abc" }

/-- A later run: the token cache holds `sampleToken`. -/
def laterRun (args : List String) : World :=
  { firstRun args with
    openFile := fun _ => none
    decode := fun _ => (sampleToken, none) }

/-- The path `tokenCacheFile` builds under a home directory. -/
def cacheFileOf (homeDir : String) : String :=
  filepath.Join (filepath.Join homeDir ".credentials") "calendar-go-quickstart.json"

/-- The events of the interactive authorisation and of saving its token. -/
def Event.isAuthFlow : Event → Bool
  | .print _ => true
  | .scan => true
  | .exchange _ => true
  | .create _ => true
  | .encode _ _ => true
  | .getTokenFromWeb => true
  | .saveToken _ _ => true
  | _ => false

/-- An entry into `saveToken`. -/
def Event.isSaveToken : Event → Bool
  | .saveToken _ _ => true
  | _ => false

/-- An entry into `getTokenFromWeb`. -/
def Event.isGetTokenFromWeb : Event → Bool
  | .getTokenFromWeb => true
  | _ => false

/-- The events of `getTokenFromWeb` up to and including the read of the code. -/
def promptEvents (w : World) (config : Config) : List Event :=
  [.getTokenFromWeb,
   .print ("Go to the following link in your browser then type the " ++
     "authorization code: \n" ++ w.authCodeURL config ++ "\n"),
   .scan]

/-- The events of `saveToken` up to and including the creation of the file. -/
def saveEvents (file : String) (tok : Token) : List Event :=
  [.saveToken file tok, .print ("Saving credential file to: " ++ file ++ "\n"), .create file]

/-- The events of `tokenCacheFile` and `tokenFromFile`. -/
def lookEvents (homeDir : String) : List Event :=
  [.mkdirAll (filepath.Join homeDir ".credentials"), .openFile (cacheFileOf homeDir)]

/-- The seven weekday codes, in the order of `time.Weekday`. -/
def days : List String := ["sun", "mon", "tue", "wed", "thu", "fri", "sat"]

/-- The code of weekday `d`. -/
def dayCode (d : Int) : String := days.getD d.toNat ""

/-- The map `makeDayMap` builds, written without the failure of the slice:
offsets 0..6 in turn, each day under the code of its weekday. -/
def dayMapOf (today : Time) : DayMap :=
  (List.range 7).foldl
    (fun dayMap i => dayMap.set (dayCode (today.AddDate 0 0 i).Weekday) (today.AddDate 0 0 i)) []

/-- The text `Time.Format` writes after the date for layout `RFC3339`,
following the separator `T`. -/
def clockPart (t : Time) : List Char :=
  [.stdHour, .lit ":", .stdZeroMinute, .lit ":", .stdZeroSecond, .stdISO8601ColonTZ].foldl
    (fun acc piece => acc ++ appendStd t [] piece) []

/-- The event insert request. -/
def Event.isInsert : Event → Bool
  | .insert _ _ => true
  | _ => false

/-- A run without a token cache in which the authorisation server refuses the
code the user typed. -/
def refusedRun (args : List String) : World :=
  { firstRun args with exchange := fun _ _ => .error "oauth2: cannot fetch token: 400 Bad Request" }

/-- A run in a directory without the client secret file. -/
def noSecretRun (args : List String) : World :=
  { firstRun args with
    readFile := fun _ => .error "open client_secret.json: no such file or directory" }

/-- A first run in which the disk fills up while the token is written: the
cache file is created, `Encode` fails. -/
def diskFullRun (args : List String) : World :=
  { firstRun args with encode := fun _ _ => some "write: no space left on device" }

/-- The second half of `absDate`: month and day of the month from the day
within the year. -/
def monthDay (leap : Bool) (day : Int) : Int × Int :=
  if leap && day == 31 + 29 - 1 then (2, 29)
  else
    let day := if leap && day > 31 + 29 - 1 then day - 1 else day
    let month := day / 31
    let endd := daysBefore (month + 1)
    if day >= endd then (month + 1 + 1, day - endd + 1)
    else (month + 1, day - daysBefore month + 1)

/-- The day count `time.Date` computes for a year, a month in 1..12 and a
day of the month (which may lie outside the month). -/
def civilDays (year month day : Int) : Int :=
  let y := year - absoluteZeroYear
  let n := y / 400
  let y := y - 400 * n
  let d := daysPer400Years * n
  let n := y / 100
  let y := y - 100 * n
  let d := d + daysPer100Years * n
  let n := y / 4
  let y := y - 4 * n
  let d := d + daysPer4Years * n
  let n := y
  let d := d + 365 * n
  let d := d + daysBefore (month - 1)
  let d := if isLeap year && month >= 3 then d + 1 else d
  d + (day - 1)

/-- The last step of `time.Date`: from the wall clock reading taken as if it
were UTC to the instant, by the zone offset looked up. -/
def zoneFix (loc : Location) (unix : Int) : Int :=
  let zone := loc.lookup unix
  let offset := zone.1
  let start := zone.2.1
  let endd := zone.2.2
  if offset != 0 then
    let utc := unix - offset
    let offset := if utc < start || utc >= endd then (loc.lookup utc).1 else offset
    unix - offset
  else unix

/-! ## Sample locations and clock readings -/

/-- America/Santiago around 2024: summer time (UTC-3) until 7 April 2024
03:00 UTC, winter time (UTC-4) until 8 September 2024 04:00 UTC, when the
local clock jumps from Saturday 24:00 to Sunday 01:00, and summer time again
until 6 April 2025. -/
def santiago : Location :=
  ⟨-10800, [⟨1712458800, -14400⟩, ⟨1725768000, -10800⟩, ⟨1743908400, -14400⟩]⟩

/-- Wednesday 4 September 2024, 00:30 local time in Santiago (04:30 UTC). -/
def santiagoWednesday : Time := unixTime 1725424200 0 santiago

/-- Wednesday 4 September 2024, 04:30 UTC. -/
def utcWednesday : Time := unixTime 1725424200 0 UTC

/-- The first second of the year 10000, UTC. -/
def year10000 : Time := unixTime 253402300800 0 UTC

/-- Atlantic/Azores in 2025: UTC-1 until Sunday 30 March 2025 01:00 UTC, when
the local clock jumps from 00:00 to 01:00 (UTC+0), and UTC-1 again from
26 October 2025. -/
def azores : Location := ⟨-3600, [⟨1743296400, 0⟩, ⟨1761440400, -3600⟩]⟩

/-- Wednesday 26 March 2025, 00:30 local time in the Azores (01:30 UTC). -/
def azoresWednesday : Time := unixTime 1742952600 0 azores

/-- A later run (valid token cache, every call succeeds) with the clock
reading `now`. -/
def runAt (now : Time) (args : List String) : World :=
  { laterRun args with now := now }

/-- No change of local time near the week ahead: the offset is at most a day
and no transition of the zone table falls between one day before `t` and
seven days after it. -/
def quietWeek (t : Time) : Prop :=
  -secondsPerDay ≤ t.offset ∧ t.offset ≤ secondsPerDay ∧
    ∀ tr ∈ t.loc.tx, tr.when ≤ t.unixSec - secondsPerDay ∨
      t.unixSec + 7 * secondsPerDay < tr.when

instance (t : Time) : Decidable (quietWeek t) := by
  unfold quietWeek
  infer_instance

/-- The number of the local calendar day of the instant, counted from day 0
of the absolute scale. -/
def Time.dayNumber (t : Time) : Int := t.abs / secondsPerDay

/-- The seven days of the loop are in step with the calendar: for each `i`
in 0..6, `AddDate(0, 0, i)` falls on the calendar day `i` days after the day
of `t`. -/
def daysInStep (t : Time) : Prop :=
  ∀ i : Nat, i < 7 → (t.AddDate 0 0 i).dayNumber = t.dayNumber + i

instance (t : Time) : Decidable (daysInStep t) := by
  unfold daysInStep
  infer_instance

/-- None of the seven days of the loop is the zero `Time`. -/
def noZeroDay (t : Time) : Prop :=
  ∀ i : Nat, i < 7 → (t.AddDate 0 0 i).IsZero = false

instance (t : Time) : Decidable (noZeroDay t) := by
  unfold noZeroDay
  infer_instance

/-- The instant `days` whole days after `t`, in the same location. -/
def Time.plusDays (t : Time) (days : Int) : Time :=
  ⟨t.sec + secondsPerDay * days, t.nsec, t.loc⟩

/-! # Theorems -/

/-! ## Credentials: what `getClient` does -/

theorem getClient_cached_eq (w : World) (config : Config) (homeDir : String) (t : Token)
    (tr : List Event)
    (hUser : w.userCurrent = .ok homeDir)
    (hOpen : w.openFile (cacheFileOf homeDir) = none)
    (hDecode : w.decode (cacheFileOf homeDir) = (t, none)) :
    getClient w config tr =
      (tr ++ [.mkdirAll (filepath.Join homeDir ".credentials"), .openFile (cacheFileOf homeDir)],
        .ok ⟨config, some t⟩) := by
  simp [getClient, tokenCacheFile, tokenFromFile, hUser, cacheFileOf, bind, Prog.bind, pure, emit] at *
  simp [hOpen, hDecode]

/-- Without a current user `getClient` stops before touching anything. -/
theorem getClient_userErr (w : World) (config : Config) (err : String) (tr : List Event)
    (hUser : w.userCurrent = .error err) :
    getClient w config tr =
      (tr, .fatal ("Unable to get path to cached credential file. " ++ err)) := by
  simp [getClient, tokenCacheFile, hUser, bind, Prog.bind, pure, fatalf]

/-- No usable cache file and no code read: the run stops after the prompt. -/
theorem getClient_scanErr (w : World) (config : Config) (homeDir : String)
    (tr : List Event) (err : String) (hScan : w.scan = .error err)
    (hUser : w.userCurrent = .ok homeDir)
    (hFile : w.openFile (cacheFileOf homeDir) ≠ none ∨ (w.decode (cacheFileOf homeDir)).2 ≠ none) :
    getClient w config tr = (tr ++ lookEvents homeDir ++ promptEvents w config,
        .fatal ("Unable to read authorization code " ++ err)) := by
  simp only [cacheFileOf] at *
  rcases hFile with hO | hD
  · obtain ⟨e, hO⟩ := Option.ne_none_iff_exists'.mp hO
    simp [getClient, tokenCacheFile, tokenFromFile, getTokenFromWeb, saveToken, hUser, hO,
      hScan, lookEvents, promptEvents, bind, Prog.bind, pure, emit, fatalf, cacheFileOf]
  · obtain ⟨e, hD⟩ := Option.ne_none_iff_exists'.mp hD
    cases hO : w.openFile (filepath.Join (filepath.Join homeDir ".credentials")
        "calendar-go-quickstart.json") <;>
    simp [getClient, tokenCacheFile, tokenFromFile, getTokenFromWeb, saveToken, hUser, hO, hD,
      hScan, lookEvents, promptEvents, bind, Prog.bind, pure, emit, fatalf, cacheFileOf]

/-- No usable cache file and the exchange refused: the run stops after the
exchange. -/
theorem getClient_exchangeErr (w : World) (config : Config) (homeDir : String)
    (tr : List Event) (code err : String) (hScan : w.scan = .ok code)
    (hEx : w.exchange config code = .error err)
    (hUser : w.userCurrent = .ok homeDir)
    (hFile : w.openFile (cacheFileOf homeDir) ≠ none ∨ (w.decode (cacheFileOf homeDir)).2 ≠ none) :
    getClient w config tr = (tr ++ lookEvents homeDir ++ promptEvents w config ++ [.exchange code],
        .fatal ("Unable to retrieve token from web " ++ err)) := by
  simp only [cacheFileOf] at *
  rcases hFile with hO | hD
  · obtain ⟨e, hO⟩ := Option.ne_none_iff_exists'.mp hO
    simp [getClient, tokenCacheFile, tokenFromFile, getTokenFromWeb, saveToken, hUser, hO,
      hScan, hEx, lookEvents, promptEvents, bind, Prog.bind, pure, emit, fatalf, cacheFileOf]
  · obtain ⟨e, hD⟩ := Option.ne_none_iff_exists'.mp hD
    cases hO : w.openFile (filepath.Join (filepath.Join homeDir ".credentials")
        "calendar-go-quickstart.json") <;>
    simp [getClient, tokenCacheFile, tokenFromFile, getTokenFromWeb, saveToken, hUser, hO, hD,
      hScan, hEx, lookEvents, promptEvents, bind, Prog.bind, pure, emit, fatalf, cacheFileOf]

/-- No usable cache file, a token obtained, the cache file not created: the
run stops inside `saveToken`. -/
theorem getClient_createErr (w : World) (config : Config) (homeDir : String)
    (tr : List Event) (code err : String) (tok : Token) (hScan : w.scan = .ok code)
    (hEx : w.exchange config code = .ok tok)
    (hCreate : w.create (cacheFileOf homeDir) = some err)
    (hUser : w.userCurrent = .ok homeDir)
    (hFile : w.openFile (cacheFileOf homeDir) ≠ none ∨ (w.decode (cacheFileOf homeDir)).2 ≠ none) :
    getClient w config tr = (tr ++ lookEvents homeDir ++ promptEvents w config ++ [.exchange code] ++
          saveEvents (cacheFileOf homeDir) tok,
        .fatal ("Unable to cache oauth token: " ++ err)) := by
  simp only [cacheFileOf] at *
  rcases hFile with hO | hD
  · obtain ⟨e, hO⟩ := Option.ne_none_iff_exists'.mp hO
    simp [getClient, tokenCacheFile, tokenFromFile, getTokenFromWeb, saveToken, hUser, hO,
      hScan, hEx, hCreate, lookEvents, promptEvents, saveEvents, bind, Prog.bind, pure, emit, fatalf, cacheFileOf]
  · obtain ⟨e, hD⟩ := Option.ne_none_iff_exists'.mp hD
    cases hO : w.openFile (filepath.Join (filepath.Join homeDir ".credentials")
        "calendar-go-quickstart.json") <;>
    simp [getClient, tokenCacheFile, tokenFromFile, getTokenFromWeb, saveToken, hUser, hO, hD,
      hScan, hEx, hCreate, lookEvents, promptEvents, saveEvents, bind, Prog.bind, pure, emit, fatalf, cacheFileOf]

/-- No usable cache file, a token obtained, the cache file created: the token
is encoded into it and `getClient` returns the client of that token. -/
theorem getClient_saved (w : World) (config : Config) (homeDir : String)
    (tr : List Event) (code : String) (tok : Token) (hScan : w.scan = .ok code)
    (hEx : w.exchange config code = .ok tok)
    (hCreate : w.create (cacheFileOf homeDir) = none)
    (hUser : w.userCurrent = .ok homeDir)
    (hFile : w.openFile (cacheFileOf homeDir) ≠ none ∨ (w.decode (cacheFileOf homeDir)).2 ≠ none) :
    getClient w config tr = (tr ++ lookEvents homeDir ++ promptEvents w config ++ [.exchange code] ++
          saveEvents (cacheFileOf homeDir) tok ++ [.encode (cacheFileOf homeDir) tok],
        .ok ⟨config, some tok⟩) := by
  simp only [cacheFileOf] at *
  rcases hFile with hO | hD
  · obtain ⟨e, hO⟩ := Option.ne_none_iff_exists'.mp hO
    simp [getClient, tokenCacheFile, tokenFromFile, getTokenFromWeb, saveToken, hUser, hO,
      hScan, hEx, hCreate, lookEvents, promptEvents, saveEvents, bind, Prog.bind, pure, emit, fatalf, cacheFileOf]
  · obtain ⟨e, hD⟩ := Option.ne_none_iff_exists'.mp hD
    cases hO : w.openFile (filepath.Join (filepath.Join homeDir ".credentials")
        "calendar-go-quickstart.json") <;>
    simp [getClient, tokenCacheFile, tokenFromFile, getTokenFromWeb, saveToken, hUser, hO, hD,
      hScan, hEx, hCreate, lookEvents, promptEvents, saveEvents, bind, Prog.bind, pure, emit, fatalf, cacheFileOf]

/-! ## The calendar -/

theorem isLeap_iff (year : Int) :
    isLeap year = true ↔ (year % 4 = 0 ∧ (year % 100 ≠ 0 ∨ year % 400 = 0)) := by
  simp [isLeap]

/-- `absDate` is `yearDay` followed by `monthDay`. -/
theorem absDate_eq (abs : Int) :
    absDate abs = ((yearDay abs).1, monthDay (isLeap (yearDay abs).1) (yearDay abs).2) := by
  rcases h : yearDay abs with ⟨year, yday⟩
  simp only [absDate, monthDay, h]
  split_ifs <;> rfl

/-- The cycles `absDate` cuts the day count into. -/
theorem yearDay_cycles (abs : Int) :
    ∃ n1 n2 n3 n4 d4 : Int,
      yearDay abs = (400 * n1 + 100 * n2 + 4 * n3 + n4 + absoluteZeroYear, d4) ∧
      abs / secondsPerDay = 146097 * n1 + 36524 * n2 + 1461 * n3 + 365 * n4 + d4 ∧
      0 ≤ n2 ∧ n2 ≤ 3 ∧ 0 ≤ n3 ∧ n3 ≤ 24 ∧ 0 ≤ n4 ∧ n4 ≤ 3 ∧ 0 ≤ d4 ∧ d4 ≤ 365 ∧
      (d4 = 365 → n4 = 3 ∧ (n3 = 24 → n2 = 3)) := by
  simp only [yearDay, daysPer400Years, daysPer100Years, daysPer4Years]
  norm_num
  generalize abs / secondsPerDay = d0
  generalize hn1 : d0 / 146097 = n1
  generalize hd1 : d0 - 146097 * n1 = d1
  have b1 : 0 ≤ d1 ∧ d1 ≤ 146096 := by omega
  generalize hq2 : d1 / 36524 = q2
  generalize hn2 : q2 - q2 / 4 = n2
  have b2 : 0 ≤ n2 ∧ n2 ≤ 3 ∧ 36524 * n2 ≤ d1 ∧ (n2 < 3 → d1 < 36524 * n2 + 36524) := by
    omega
  clear hq2 hn2
  generalize hd2 : d1 - 36524 * n2 = d2
  have b2' : 0 ≤ d2 ∧ d2 ≤ 36524 ∧ (n2 < 3 → d2 ≤ 36523) := by omega
  generalize hn3 : d2 / 1461 = n3
  generalize hd3 : d2 - 1461 * n3 = d3
  have b3 : 0 ≤ n3 ∧ n3 ≤ 24 ∧ 0 ≤ d3 ∧ d3 ≤ 1460 ∧ (n3 = 24 → n2 < 3 → d3 ≤ 1459) := by
    omega
  generalize hq4 : d3 / 365 = q4
  generalize hn4 : q4 - q4 / 4 = n4
  have b4 : 0 ≤ n4 ∧ n4 ≤ 3 ∧ 365 * n4 ≤ d3 ∧ (n4 < 3 → d3 < 365 * n4 + 365) := by omega
  clear hq4 hn4
  generalize hd4 : d3 - 365 * n4 = d4
  refine ⟨n1, n2, n3, n4, d4, ⟨rfl, rfl⟩, ?_⟩
  omega

theorem isLeap_cycles (n1 n2 n3 n4 : Int) (h2 : 0 ≤ n2 ∧ n2 ≤ 3) (h3 : 0 ≤ n3 ∧ n3 ≤ 24)
    (h4 : 0 ≤ n4 ∧ n4 ≤ 3) :
    isLeap (400 * n1 + 100 * n2 + 4 * n3 + n4 + absoluteZeroYear) = true ↔
      (n4 = 3 ∧ (n3 = 24 → n2 = 3)) := by
  rw [isLeap_iff]
  simp only [absoluteZeroYear]
  omega

/-- The day within the year is below 365, or 365 in a leap year. -/
theorem yearDay_range (abs : Int) :
    0 ≤ (yearDay abs).2 ∧ (yearDay abs).2 ≤ 365 ∧
      ((yearDay abs).2 = 365 → isLeap (yearDay abs).1 = true) := by
  obtain ⟨n1, n2, n3, n4, d4, h, -, h2⟩ := yearDay_cycles abs
  rw [h, isLeap_cycles n1 n2 n3 n4 ⟨h2.1, h2.2.1⟩ ⟨h2.2.2.1, h2.2.2.2.1⟩
    ⟨h2.2.2.2.2.1, h2.2.2.2.2.2.1⟩]
  simp only
  omega

theorem daysBefore_0 : daysBefore 0 = 0 := rfl
theorem daysBefore_1 : daysBefore 1 = 31 := rfl
theorem daysBefore_2 : daysBefore 2 = 59 := rfl
theorem daysBefore_3 : daysBefore 3 = 90 := rfl
theorem daysBefore_4 : daysBefore 4 = 120 := rfl
theorem daysBefore_5 : daysBefore 5 = 151 := rfl
theorem daysBefore_6 : daysBefore 6 = 181 := rfl
theorem daysBefore_7 : daysBefore 7 = 212 := rfl
theorem daysBefore_8 : daysBefore 8 = 243 := rfl
theorem daysBefore_9 : daysBefore 9 = 273 := rfl
theorem daysBefore_10 : daysBefore 10 = 304 := rfl
theorem daysBefore_11 : daysBefore 11 = 334 := rfl
theorem daysBefore_12 : daysBefore 12 = 365 := rfl

/-- The month arithmetic on a day count below 365, 29 February left out. -/
theorem month_core (day : Int) (h0 : 0 ≤ day) (h1 : day ≤ 364) :
    ∃ m d : Int,
      (if day ≥ daysBefore (day / 31 + 1) then
          (day / 31 + 1 + 1, day - daysBefore (day / 31 + 1) + 1)
        else (day / 31 + 1, day - daysBefore (day / 31) + 1)) = (m, d) ∧
      1 ≤ m ∧ m ≤ 12 ∧ 1 ≤ d ∧ d ≤ 31 ∧ daysBefore (m - 1) + (d - 1) = day ∧
      (m ≥ 3 ↔ day ≥ 59) ∧ (m = 2 → d ≤ 28) := by
  have hk : 0 ≤ day / 31 ∧ day / 31 ≤ 11 := by omega
  have hk2 : 31 * (day / 31) ≤ day ∧ day < 31 * (day / 31) + 31 := by omega
  generalize day / 31 = k at *
  obtain ⟨hk0, hk1⟩ := hk
  interval_cases k <;>
    norm_num [daysBefore_0, daysBefore_1, daysBefore_2, daysBefore_3, daysBefore_4,
      daysBefore_5, daysBefore_6, daysBefore_7, daysBefore_8, daysBefore_9, daysBefore_10,
      daysBefore_11, daysBefore_12] <;>
    split_ifs <;>
    refine ⟨_, _, rfl, ?_⟩ <;>
    norm_num [daysBefore_0, daysBefore_1, daysBefore_2, daysBefore_3, daysBefore_4,
      daysBefore_5, daysBefore_6, daysBefore_7, daysBefore_8, daysBefore_9, daysBefore_10,
      daysBefore_11, daysBefore_12] <;>
    omega

/-- Month and day of the month are in range and give back the day within the
year: the days before the month, one more from March on in a leap year, and
the days before the day. -/
theorem monthDay_spec (leap : Bool) (day : Int) (h0 : 0 ≤ day) (h1 : day ≤ 365)
    (hl : day = 365 → leap = true) :
    1 ≤ (monthDay leap day).1 ∧ (monthDay leap day).1 ≤ 12 ∧
    1 ≤ (monthDay leap day).2 ∧ (monthDay leap day).2 ≤ 31 ∧
    daysBefore ((monthDay leap day).1 - 1) +
      (if leap && decide ((monthDay leap day).1 ≥ 3) then 1 else 0) +
      ((monthDay leap day).2 - 1) = day := by
  cases leap with
  | false =>
    have h364 : day ≤ 364 := by
      rcases lt_or_ge day 365 with h | h
      · omega
      · exact absurd (hl (by omega)) (by simp)
    obtain ⟨m, d, he, hm⟩ := month_core day h0 h364
    simp only [monthDay, Bool.false_and, Bool.false_eq_true, if_false, he]
    omega
  | true =>
    by_cases h59 : day = 59
    · subst h59; decide
    · by_cases hgt : day > 59
      · obtain ⟨m, d, he, hm⟩ := month_core (day - 1) (by omega) (by omega)
        have hb : (day == 31 + 29 - 1) = false := by simpa using h59
        have hg : day > 31 + 29 - 1 := by omega
        simp only [monthDay, Bool.true_and, hb, Bool.false_eq_true, if_false, hg,
          decide_True, if_true, he]
        have hm3 : m ≥ 3 := by omega
        simp only [hm3, decide_True, if_true]
        omega
      · obtain ⟨m, d, he, hm⟩ := month_core day h0 (by omega)
        have hb : (day == 31 + 29 - 1) = false := by simpa using h59
        have hg : ¬ day > 31 + 29 - 1 := by omega
        simp only [monthDay, Bool.true_and, hb, Bool.false_eq_true, if_false, hg,
          decide_False, he]
        have hm3 : ¬ m ≥ 3 := by omega
        simp only [hm3, decide_False, Bool.false_eq_true, if_false]
        omega

/-- The date of every absolute time has a month in 1..12 and a day in 1..31. -/
theorem absDate_range (abs : Int) :
    1 ≤ (absDate abs).2.1 ∧ (absDate abs).2.1 ≤ 12 ∧
      1 ≤ (absDate abs).2.2 ∧ (absDate abs).2.2 ≤ 31 := by
  obtain ⟨h0, h1, hl⟩ := yearDay_range abs
  obtain ⟨a, b, c, d, _⟩ := monthDay_spec (isLeap (yearDay abs).1) (yearDay abs).2 h0 h1 hl
  rw [absDate_eq]
  exact ⟨a, b, c, d⟩

/-- The day count of `time.Date` undoes `absDate`, and a day offset added to
the day of the month is added to the day count. -/
theorem civilDays_absDate (abs i : Int) :
    civilDays (absDate abs).1 (absDate abs).2.1 ((absDate abs).2.2 + i) =
      abs / secondsPerDay + i := by
  obtain ⟨n1, n2, n3, n4, d4, h, hd, h2⟩ := yearDay_cycles abs
  obtain ⟨h0, h1, hl⟩ := yearDay_range abs
  obtain ⟨ma, mb, mc, md, me⟩ :=
    monthDay_spec (isLeap (yearDay abs).1) (yearDay abs).2 h0 h1 hl
  rw [absDate_eq]
  simp only [civilDays]
  generalize monthDay (isLeap (yearDay abs).1) (yearDay abs).2 = md at *
  rw [h] at me ⊢
  simp only at me ⊢
  generalize isLeap (400 * n1 + 100 * n2 + 4 * n3 + n4 + absoluteZeroYear) = leap at *
  have e1 : (400 * n1 + 100 * n2 + 4 * n3 + n4 + absoluteZeroYear - absoluteZeroYear) / 400
      = n1 := by omega
  have e2 : (400 * n1 + 100 * n2 + 4 * n3 + n4 + absoluteZeroYear - absoluteZeroYear
      - 400 * n1) / 100 = n2 := by omega
  have e3 : (400 * n1 + 100 * n2 + 4 * n3 + n4 + absoluteZeroYear - absoluteZeroYear
      - 400 * n1 - 100 * n2) / 4 = n3 := by omega
  rw [e1, e2, e3, hd]
  simp only [daysPer400Years, daysPer100Years, daysPer4Years]
  split_ifs at me ⊢ <;> omega

/-! ## `time.Date` and `Time.AddDate` -/

theorem norm_id (hi lo base : Int) (h0 : 0 ≤ lo) (h1 : lo < base) :
    norm hi lo base = (hi, lo) := by
  have a : ¬ lo < 0 := by omega
  have b : ¬ lo ≥ base := by omega
  simp only [norm, a, b, if_false]

/-- The clock of an absolute time is in range and adds up to the seconds of
the day. -/
theorem absClock_spec (abs : Int) :
    0 ≤ (absClock abs).1 ∧ (absClock abs).1 < 24 ∧
    0 ≤ (absClock abs).2.1 ∧ (absClock abs).2.1 < 60 ∧
    0 ≤ (absClock abs).2.2 ∧ (absClock abs).2.2 < 60 ∧
    (absClock abs).1 * secondsPerHour + (absClock abs).2.1 * secondsPerMinute +
      (absClock abs).2.2 = abs % secondsPerDay := by
  simp only [absClock, secondsPerDay, secondsPerHour, secondsPerMinute]
  omega

/-- `time.Date` on fields that need no normalising, but for the day. -/
theorem Date_eq (year month day hour min sec nsec : Int) (loc : Location)
    (hm : 1 ≤ month ∧ month ≤ 12) (hh : 0 ≤ hour ∧ hour < 24) (hmi : 0 ≤ min ∧ min < 60)
    (hs : 0 ≤ sec ∧ sec < 60) (hn : 0 ≤ nsec ∧ nsec < 1000000000) :
    Date year month day hour min sec nsec loc =
      unixTime (zoneFix loc (civilDays year month day * secondsPerDay +
        (hour * secondsPerHour + min * secondsPerMinute + sec) +
        (absoluteToInternal + internalToUnix))) nsec loc := by
  have n1 : norm year (month - 1) 12 = (year, month - 1) := norm_id _ _ _ (by omega) (by omega)
  have n2 : norm sec nsec 1000000000 = (sec, nsec) := norm_id _ _ _ hn.1 hn.2
  have n3 : norm min sec 60 = (min, sec) := norm_id _ _ _ hs.1 hs.2
  have n4 : norm hour min 60 = (hour, min) := norm_id _ _ _ hmi.1 hmi.2
  have n5 : norm day hour 24 = (day, hour) := norm_id _ _ _ hh.1 hh.2
  have e : month - 1 + 1 = month := by omega
  simp only [Date, n1, n2, n3, n4, n5, e, civilDays, zoneFix]

/-- Adding days moves the wall clock reading by whole days before the zone
is looked up. -/
theorem AddDate_eq (t : Time) (i : Int) (hn : 0 ≤ t.nsec ∧ t.nsec < 1000000000) :
    t.AddDate 0 0 i =
      unixTime (zoneFix t.loc (t.unixSec + t.offset + secondsPerDay * i)) t.nsec t.loc := by
  obtain ⟨hm1, hm2, -, -⟩ := absDate_range t.abs
  obtain ⟨c1, c2, c3, c4, c5, c6, c7⟩ := absClock_spec t.abs
  have hd := civilDays_absDate t.abs i
  simp only [Time.AddDate, Time.Date, Time.Clock, Int.add_zero] at *
  rw [Date_eq _ _ _ _ _ _ _ _ ⟨hm1, hm2⟩ ⟨c1, c2⟩ ⟨c3, c4⟩ ⟨c5, c6⟩ hn, hd, c7]
  congr 2
  simp only [Time.abs, Time.offset, Time.unixSec, secondsPerDay, secondsPerHour,
    secondsPerMinute, absoluteToInternal, internalToAbsolute, internalToUnix, unixToInternal]
  omega

/-- Where local time keeps one offset around both the wall clock reading and
the instant, the zone step subtracts that offset. -/
theorem zoneFix_const (loc : Location) (unix off : Int)
    (h1 : (loc.lookup unix).1 = off) (h2 : (loc.lookup (unix - off)).1 = off) :
    zoneFix loc unix = unix - off := by
  simp only [zoneFix, h1]
  by_cases h0 : off = 0
  · simp [h0]
  · have hb : (off != 0) = true := by simpa using h0
    simp only [hb, if_true]
    split_ifs
    · rw [h2]
    · rfl

/-! ## Weeks without a change of local time -/

theorem lookupFrom_steady (tx : List zoneTrans) :
    ∀ (offset start s s' : Int), (∀ tr ∈ tx, tr.when ≤ s ∨ s' < tr.when) → s ≤ s' →
      (lookupFrom offset start tx s).1 = (lookupFrom offset start tx s').1 := by
  induction tx with
  | nil => intro offset start s s' _ _; rfl
  | cons tr rest ih =>
    intro offset start s s' h hs
    rcases h tr (List.mem_cons_self _ _) with hw | hw
    · have a : ¬ s < tr.when := by omega
      have b : ¬ s' < tr.when := by omega
      simp only [lookupFrom, a, b, if_false]
      exact ih _ _ s s' (fun x hx => h x (List.mem_cons_of_mem _ hx)) hs
    · have a : s < tr.when := by omega
      simp only [lookupFrom, a, hw, if_true]

/-- In a quiet week every instant from a day before `t` to seven days after
it has the offset of `t`. -/
theorem quietWeek_offset (t : Time) (hq : quietWeek t) (p : Int)
    (h1 : t.unixSec - secondsPerDay ≤ p) (h2 : p ≤ t.unixSec + 7 * secondsPerDay) :
    (t.loc.lookup p).1 = t.offset := by
  obtain ⟨_, _, hq⟩ := hq
  have key : ∀ q, t.unixSec - secondsPerDay ≤ q → q ≤ t.unixSec + 7 * secondsPerDay →
      (t.loc.lookup (t.unixSec - secondsPerDay)).1 = (t.loc.lookup q).1 := by
    intro q hq1 hq2
    refine lookupFrom_steady _ _ _ _ _ (fun tr htr => ?_) hq1
    rcases hq tr htr with h | h
    · left; exact h
    · right; omega
  have hd : (0 : Int) ≤ secondsPerDay := by decide
  rw [Time.offset, ← key p h1 h2, ← key t.unixSec (by omega) (by omega)]

/-- In a quiet week `AddDate(0, 0, i)` for `i` in 0..6 is the instant `i`
whole days later. -/
theorem AddDate_quiet (t : Time) (i : Int) (hq : quietWeek t)
    (hn : 0 ≤ t.nsec ∧ t.nsec < 1000000000) (h0 : 0 ≤ i) (h6 : i ≤ 6) :
    t.AddDate 0 0 i = t.plusDays i := by
  have hq' := hq
  obtain ⟨o1, o2, _⟩ := hq'
  have hd : secondsPerDay = 86400 := by decide
  rw [hd] at o1 o2
  have e1 : (t.loc.lookup (t.unixSec + t.offset + secondsPerDay * i)).1 = t.offset :=
    quietWeek_offset t hq _ (by rw [hd]; omega) (by rw [hd]; omega)
  have e2 : (t.loc.lookup (t.unixSec + t.offset + secondsPerDay * i - t.offset)).1
      = t.offset :=
    quietWeek_offset t hq _ (by rw [hd]; omega) (by rw [hd]; omega)
  rw [AddDate_eq t i hn, zoneFix_const _ _ _ e1 e2]
  simp only [unixTime, Time.plusDays, Time.unixSec, internalToUnix]
  congr 1
  omega

/-- In a quiet week the day `i` days ahead has the offset of today. -/
theorem plusDays_offset (t : Time) (i : Int) (hq : quietWeek t) (h0 : 0 ≤ i) (h6 : i ≤ 6) :
    (t.plusDays i).offset = t.offset := by
  have hd : secondsPerDay = 86400 := by decide
  have e : (t.plusDays i).unixSec = t.unixSec + secondsPerDay * i := by
    simp only [Time.plusDays, Time.unixSec]; omega
  simp only [Time.offset, e]
  exact quietWeek_offset t hq _ (by rw [hd]; omega) (by rw [hd]; omega)

theorem plusDays_abs (t : Time) (i : Int) (hq : quietWeek t) (h0 : 0 ≤ i) (h6 : i ≤ 6) :
    (t.plusDays i).abs = t.abs + secondsPerDay * i := by
  have ho := plusDays_offset t i hq h0 h6
  simp only [Time.offset] at ho
  simp only [Time.abs, ho]
  simp only [Time.plusDays, Time.unixSec]
  omega

/-- In a quiet week the weekday `i` days ahead is today's moved on by `i`. -/
theorem plusDays_Weekday (t : Time) (i : Int) (hq : quietWeek t) (h0 : 0 ≤ i) (h6 : i ≤ 6) :
    (t.plusDays i).Weekday = (t.Weekday + i) % 7 := by
  simp only [Time.Weekday, plusDays_abs t i hq h0 h6, absWeekday, secondsPerWeek,
    secondsPerDay, secondsPerHour, secondsPerMinute]
  omega

/-! ## The date path: weekdays and keys -/

theorem absWeekday_range (abs : Int) : 0 ≤ absWeekday abs ∧ absWeekday abs < 7 := by
  simp only [absWeekday, secondsPerWeek, secondsPerDay, secondsPerHour, secondsPerMinute]
  omega

/-- The key of weekday `d`: the slice never fails and gives the code. -/
theorem key_of_weekday (d : Int) (h0 : 0 ≤ d) (h7 : d < 7) :
    sliceTo (strings.ToLower (Weekday.String d)) 3 = .ok (dayCode d) := by
  have h : d = 0 ∨ d = 1 ∨ d = 2 ∨ d = 3 ∨ d = 4 ∨ d = 5 ∨ d = 6 := by omega
  rcases h with h | h | h | h | h | h | h <;> subst h <;> decide

theorem weekday_name_length (d : Int) (h0 : 0 ≤ d) (h7 : d < 7) :
    3 ≤ (strings.ToLower (Weekday.String d)).length := by
  have h : d = 0 ∨ d = 1 ∨ d = 2 ∨ d = 3 ∨ d = 4 ∨ d = 5 ∨ d = 6 := by omega
  rcases h with h | h | h | h | h | h | h <;> subst h <;> decide

theorem dayCode_mem (d : Int) (h0 : 0 ≤ d) (h7 : d < 7) : dayCode d ∈ days := by
  have h : d = 0 ∨ d = 1 ∨ d = 2 ∨ d = 3 ∨ d = 4 ∨ d = 5 ∨ d = 6 := by omega
  rcases h with h | h | h | h | h | h | h <;> subst h <;> decide

/-- The step of the loop never fails. -/
theorem makeDayMapStep_eq (today : Time) (dayMap : DayMap) (i : Nat) :
    makeDayMapStep today dayMap i =
      .ok (dayMap.set (dayCode (today.AddDate 0 0 i).Weekday) (today.AddDate 0 0 i)) := by
  have hr := absWeekday_range (today.AddDate 0 0 i).abs
  simp only [makeDayMapStep, Time.Weekday, bind, Result.bind, pure,
    key_of_weekday _ hr.1 hr.2]

/-- `makeDayMap` never fails. -/
theorem makeDayMap_eq (today : Time) : makeDayMap today = .ok (dayMapOf today) := by
  have hr : List.range 7 = [0, 1, 2, 3, 4, 5, 6] := by decide
  simp only [makeDayMap, dayMapOf, hr, List.foldlM, List.foldl, makeDayMapStep_eq, bind,
    Result.bind, pure]

/-! ## Maps -/

theorem DayMap.lookup_set (m : DayMap) (k k' : String) (v : Time) :
    (DayMap.set m k v).lookup k' = if k' = k then some v else m.lookup k' := by
  induction m with
  | nil =>
    by_cases h : k' = k
    · simp [DayMap.set, List.lookup, h]
    · have h1 : (k' == k) = false := by simpa using h
      simp [DayMap.set, List.lookup, h, h1]
  | cons e rest ih =>
    obtain ⟨k0, v0⟩ := e
    by_cases h0 : k0 = k
    · by_cases h : k' = k
      · simp [DayMap.set, List.lookup, h0, h]
      · have h1 : (k' == k) = false := by simpa using h
        simp [DayMap.set, List.lookup, h0, h, h1]
    · by_cases h : k' = k
      · have h1 : (k == k0) = false := by simpa using (fun e => h0 e.symm)
        subst h
        simp [DayMap.set, List.lookup, h0, h1, ih]
      · by_cases h2 : k' = k0
        · simp [DayMap.set, List.lookup, h0, h, h2]
        · have h3 : (k' == k0) = false := by simpa using h2
          simp [DayMap.set, List.lookup, h0, h, h3, ih]

theorem DayMap.get_set (m : DayMap) (k k' : String) (v : Time) :
    DayMap.get (DayMap.set m k v) k' = if k' = k then v else DayMap.get m k' := by
  unfold DayMap.get
  rw [DayMap.lookup_set]
  by_cases h : k' = k <;> simp [h]

theorem DayMap.get_nil (k : String) : DayMap.get [] k = Time.zero := by
  simp [DayMap.get, List.lookup]

/-- A key that is none of the seven codes is not in the map. -/
theorem dayMapOf_get_other (today : Time) (arg : String) (h : arg ∉ days) :
    (dayMapOf today).get arg = Time.zero := by
  have hr : List.range 7 = [0, 1, 2, 3, 4, 5, 6] := by decide
  have hne : ∀ t : Time, arg ≠ dayCode t.Weekday := by
    intro t e
    have hw := absWeekday_range t.abs
    exact h (e ▸ dayCode_mem _ hw.1 hw.2)
  simp only [dayMapOf, hr, List.foldl, DayMap.get_set, DayMap.get_nil, hne, if_false]

/-- The weekday is the day number moved on by one, modulo 7 (day 0 was a
Monday). -/
theorem Weekday_dayNumber (t : Time) : t.Weekday = (t.dayNumber + 1) % 7 := by
  simp only [Time.Weekday, Time.dayNumber, absWeekday, secondsPerWeek, secondsPerDay,
    secondsPerHour, secondsPerMinute]
  omega

/-- With the days in step, the weekday `i` days ahead is today's moved on by
`i`. -/
theorem Weekday_in_step (t : Time) (h : daysInStep t) (i : Nat) (hi : i < 7) :
    (t.AddDate 0 0 i).Weekday = (t.Weekday + i) % 7 := by
  rw [Weekday_dayNumber, Weekday_dayNumber, h i hi]
  omega

/-- The map when the days are in step: seven entries, the days of offsets
0..6 in this order, each under the code of its weekday. -/
theorem dayMapOf_in_step (t : Time) (h : daysInStep t) :
    dayMapOf t =
      [(dayCode ((t.Weekday + 0) % 7), t.AddDate 0 0 (0 : Nat)),
       (dayCode ((t.Weekday + 1) % 7), t.AddDate 0 0 (1 : Nat)),
       (dayCode ((t.Weekday + 2) % 7), t.AddDate 0 0 (2 : Nat)),
       (dayCode ((t.Weekday + 3) % 7), t.AddDate 0 0 (3 : Nat)),
       (dayCode ((t.Weekday + 4) % 7), t.AddDate 0 0 (4 : Nat)),
       (dayCode ((t.Weekday + 5) % 7), t.AddDate 0 0 (5 : Nat)),
       (dayCode ((t.Weekday + 6) % 7), t.AddDate 0 0 (6 : Nat))] := by
  have hr : List.range 7 = [0, 1, 2, 3, 4, 5, 6] := by decide
  have w0 := Weekday_in_step t h 0 (by decide)
  have w1 := Weekday_in_step t h 1 (by decide)
  have w2 := Weekday_in_step t h 2 (by decide)
  have w3 := Weekday_in_step t h 3 (by decide)
  have w4 := Weekday_in_step t h 4 (by decide)
  have w5 := Weekday_in_step t h 5 (by decide)
  have w6 := Weekday_in_step t h 6 (by decide)
  simp only [dayMapOf, hr, List.foldl, w0, w1, w2, w3, w4, w5, w6]
  obtain ⟨hw0, hw7⟩ := absWeekday_range t.abs
  have hw : t.Weekday = 0 ∨ t.Weekday = 1 ∨ t.Weekday = 2 ∨ t.Weekday = 3 ∨ t.Weekday = 4 ∨
      t.Weekday = 5 ∨ t.Weekday = 6 := by
    simp only [Time.Weekday]; omega
  rcases hw with h | h | h | h | h | h | h <;> rw [h] <;> rfl

/-! ## Formatting -/

theorem digit_isDigit (d : Nat) (h : d < 10) : (Char.ofNat (48 + d)).isDigit = true := by
  interval_cases d <;> decide

theorem appendIntLoop_digits (fuel : Nat) :
    ∀ (u : Nat) (buf : List Char), u ≤ fuel → (∀ c ∈ buf, c.isDigit = true) →
      ∀ c ∈ appendIntLoop fuel u buf, c.isDigit = true := by
  induction fuel with
  | zero =>
    intro u buf hu hbuf c hc
    have h0 : u = 0 := by omega
    subst h0
    simp only [appendIntLoop, List.mem_cons] at hc
    rcases hc with hc | hc
    · subst hc; decide
    · exact hbuf c hc
  | succ fuel ih =>
    intro u buf hu hbuf c hc
    by_cases h10 : u ≥ 10
    · simp only [appendIntLoop, h10, if_true] at hc
      have e : 48 + u - u / 10 * 10 = 48 + u % 10 := by omega
      rw [e] at hc
      refine ih (u / 10) _ (by omega) ?_ c hc
      intro c' hc'
      simp only [List.mem_cons] at hc'
      rcases hc' with hc' | hc'
      · subst hc'; exact digit_isDigit _ (Nat.mod_lt _ (by decide))
      · exact hbuf c' hc'
    · simp only [appendIntLoop, h10, if_false, List.mem_cons] at hc
      rcases hc with hc | hc
      · subst hc; exact digit_isDigit _ (by omega)
      · exact hbuf c hc

/-- The digit loop never runs out of turns: with `u` turns or more the
result is the same. -/
theorem appendIntLoop_fuel (fuel : Nat) :
    ∀ (fuel' u : Nat) (buf : List Char), u ≤ fuel → u ≤ fuel' →
      appendIntLoop fuel u buf = appendIntLoop fuel' u buf := by
  induction fuel with
  | zero =>
    intro fuel' u buf hu _
    have h0 : u = 0 := by omega
    subst h0
    cases fuel' <;> simp [appendIntLoop]
  | succ fuel ih =>
    intro fuel' u buf hu hu'
    by_cases h10 : u ≥ 10
    · cases fuel' with
      | zero => omega
      | succ f =>
        simp only [appendIntLoop, h10, if_true]
        exact ih f (u / 10) _ (by omega) (by omega)
    · cases fuel' <;> simp [appendIntLoop, h10]

theorem appendIntLoop_length_ge (fuel : Nat) :
    ∀ (u : Nat) (buf : List Char), buf.length + 1 ≤ (appendIntLoop fuel u buf).length := by
  induction fuel with
  | zero => intro u buf; simp [appendIntLoop]
  | succ fuel ih =>
    intro u buf
    by_cases h10 : u ≥ 10
    · simp only [appendIntLoop, h10, if_true]
      have := ih (u / 10) (Char.ofNat (48 + u - u / 10 * 10) :: buf)
      simp only [List.length_cons] at this
      omega
    · simp [appendIntLoop, h10]

theorem appendIntLoop_length_le (fuel : Nat) :
    ∀ (u : Nat) (buf : List Char) (k : Nat), u < 10 ^ (k + 1) →
      (appendIntLoop fuel u buf).length ≤ buf.length + (k + 1) := by
  induction fuel with
  | zero => intro u buf k _; simp [appendIntLoop]
  | succ fuel ih =>
    intro u buf k hk
    by_cases h10 : u ≥ 10
    · simp only [appendIntLoop, h10, if_true]
      cases k with
      | zero => simp at hk; omega
      | succ k =>
        have hq : u / 10 < 10 ^ (k + 1) := by
          rw [Nat.div_lt_iff_lt_mul (by decide)]
          simpa [pow_succ] using hk
        have := ih (u / 10) (Char.ofNat (48 + u - u / 10 * 10) :: buf) k hq
        simp only [List.length_cons] at this
        omega
    · simp [appendIntLoop, h10]

theorem appendInt_append (b : List Char) (x : Int) (width : Nat) :
    appendInt b x width = b ++ appendInt [] x width := by
  by_cases h : x < 0 <;> simp [appendInt, h]

/-- A number that is not negative is written in digits only. -/
theorem appendInt_digits (x : Int) (width : Nat) (h : 0 ≤ x) :
    ∀ c ∈ appendInt [] x width, c.isDigit = true := by
  intro c hc
  have hx : ¬ x < 0 := by omega
  simp only [appendInt, hx, if_false, List.nil_append, List.mem_append,
    List.mem_replicate] at hc
  rcases hc with hc | hc
  · rw [hc.2]; decide
  · exact appendIntLoop_digits _ _ _ (le_refl _) (by simp) c hc

/-- The letter `T` is never written for a number. -/
theorem appendInt_no_T (x : Int) (width : Nat) : 'T' ∉ appendInt [] x width := by
  intro hc
  have hd : ∀ c ∈ appendIntLoop x.natAbs x.natAbs [], c.isDigit = true :=
    appendIntLoop_digits _ _ _ (le_refl _) (by simp)
  by_cases hx : x < 0
  · simp only [appendInt, hx, if_true, List.nil_append, List.mem_append,
      List.mem_replicate, List.mem_singleton] at hc
    rcases hc with (hc | hc) | hc
    · exact absurd hc (by decide)
    · exact absurd hc.2 (by decide)
    · exact absurd (hd _ hc) (by decide)
  · simp only [appendInt, hx, if_false, List.nil_append, List.mem_append,
      List.mem_replicate] at hc
    rcases hc with hc | hc
    · exact absurd hc.2 (by decide)
    · exact absurd (hd _ hc) (by decide)

/-- A number from 0 up to (not including) `10 ^ width` fills exactly `width`
places. -/
theorem appendInt_length (x : Int) (k : Nat) (h0 : 0 ≤ x) (hk : x < 10 ^ (k + 1)) :
    (appendInt [] x (k + 1)).length = k + 1 := by
  have hx : ¬ x < 0 := by omega
  have hu : x.natAbs < 10 ^ (k + 1) := by
    have : (x.natAbs : Int) < ((10 ^ (k + 1) : Nat) : Int) := by
      rw [Int.natAbs_of_nonneg h0]; exact_mod_cast hk
    exact_mod_cast this
  have h1 := appendIntLoop_length_le x.natAbs x.natAbs [] k hu
  simp only [appendInt, hx, if_false, List.nil_append, List.length_append,
    List.length_replicate]
  simp only [List.length_nil, Nat.zero_add] at h1
  omega

theorem appendInt_append_left (b c : List Char) (x : Int) (width : Nat) :
    appendInt (b ++ c) x width = b ++ appendInt c x width := by
  rw [appendInt_append (b ++ c), appendInt_append c, List.append_assoc]

theorem appendStd_append (t : Time) (b : List Char) (piece : Std) :
    appendStd t b piece = b ++ appendStd t [] piece := by
  cases piece with
  | stdISO8601ColonTZ =>
    simp only [appendStd]
    split
    · rfl
    · split <;>
        simp only [List.nil_append, appendInt_append_left, List.append_assoc]
  | lit s => simp only [appendStd, List.nil_append]
  | _ => simp only [appendStd]; exact appendInt_append b _ _

theorem format_dateOnly_data (t : Time) :
    (t.Format dateOnly).data =
      appendInt [] t.Date.1 4 ++ '-' :: (appendInt [] t.Date.2.1 2 ++
        '-' :: appendInt [] t.Date.2.2 2) := by
  simp only [Time.Format, dateOnly, List.foldl, appendStd]
  rw [appendInt_append _ t.Date.2.2, appendInt_append _ t.Date.2.1]
  simp [List.append_assoc]

theorem format_RFC3339_data (t : Time) :
    (t.Format RFC3339).data = (t.Format dateOnly).data ++ 'T' :: clockPart t := by
  simp only [Time.Format, RFC3339, dateOnly, clockPart, List.foldl]
  rw [appendStd_append t _ .stdISO8601ColonTZ, appendStd_append t _ .stdZeroSecond,
    appendStd_append t _ (.lit ":"), appendStd_append t _ .stdZeroMinute,
    appendStd_append t _ (.lit ":"), appendStd_append t _ .stdHour,
    appendStd_append t _ (.lit "T")]
  simp [List.append_assoc, appendStd]

/-- The date written by layout "2006-01-02" holds no `T`. -/
theorem format_dateOnly_no_T (t : Time) : 'T' ∉ (t.Format dateOnly).data := by
  rw [format_dateOnly_data]
  simp only [List.mem_append, List.mem_cons, not_or]
  exact ⟨appendInt_no_T _ _, by decide, appendInt_no_T _ _, by decide, appendInt_no_T _ _⟩

theorem indexFrom_T (pre rest : List Char) (h : 'T' ∉ pre) :
    ∀ i : Int, indexFrom ['T'] (pre ++ 'T' :: rest) i = i + pre.length := by
  induction pre with
  | nil => intro i; simp [indexFrom, List.isPrefixOf]
  | cons c cs ih =>
    intro i
    simp only [List.mem_cons, not_or] at h
    have hc : ('T' == c) = false := by simpa using h.1
    simp only [List.cons_append, indexFrom, List.isPrefixOf, hc, Bool.false_and,
      Bool.false_eq_true, if_false, List.append_eq]
    rw [ih h.2 (i + 1)]
    simp only [List.length_cons]
    push_cast
    omega

/-- The index of `T` in the RFC3339 text is the length of the date. -/
theorem index_T_format (t : Time) :
    strings.Index (t.Format RFC3339) "T" = ((t.Format dateOnly).length : Int) := by
  have h := indexFrom_T (t.Format dateOnly).data (clockPart t) (format_dateOnly_no_T t) 0
  have hT : ("T" : String).data = ['T'] := rfl
  simp only [strings.Index, format_RFC3339_data, hT, h, String.length, Int.zero_add]

/-- Cutting the RFC3339 text at the index of `T` never fails and leaves the
date. -/
theorem slice_format (t : Time) :
    sliceTo (t.Format RFC3339) (strings.Index (t.Format RFC3339) "T") =
      .ok (t.Format dateOnly) := by
  rw [index_T_format]
  have hlen : ((t.Format dateOnly).length : Int) ≤ (t.Format RFC3339).length := by
    simp only [String.length, format_RFC3339_data, List.length_append]
    omega
  simp only [sliceTo, hlen, and_true, Int.toNat_ofNat, Int.natCast_nonneg, if_true]
  congr 1
  simp only [format_RFC3339_data, String.length, List.take_left']

/-! ## The date path: `getDateString` -/

theorem Result.ok_bind {α β : Type} (a : α) (f : α → Result β) :
    (Result.ok a >>= f) = f a := rfl

theorem Result.pure_eq {α : Type} (a : α) : (pure a : Result α) = Result.ok a := rfl

/-- With exactly one argument `getDateString` either stops with the day
diagnostic or returns the date of the map's entry. -/
theorem getDateString_eq (a0 arg : String) (today : Time) :
    getDateString [a0, arg] today =
      if ((dayMapOf today).get arg).IsZero then .fatal dayDiagnostic
      else .ok (((dayMapOf today).get arg).Format dateOnly) := by
  have hidx : indexAt [a0, arg] 1 = .ok arg := rfl
  unfold getDateString
  rw [makeDayMap_eq, hidx]
  simp only [Result.ok_bind, slice_format, Result.pure_eq]

/-- With one argument `getDateString` stops with the day diagnostic or returns. -/
theorem getDateString_cases (a0 arg : String) (today : Time) :
    getDateString [a0, arg] today = .fatal dayDiagnostic ∨
      ∃ dateString, getDateString [a0, arg] today = .ok dateString := by
  rw [getDateString_eq]
  by_cases hz : ((dayMapOf today).get arg).IsZero = true
  · left; simp [hz]
  · right; exact ⟨((dayMapOf today).get arg).Format dateOnly, by simp [hz]⟩

/-- An argument that is none of the seven codes stops the program. -/
theorem getDateString_other (a0 arg : String) (today : Time) (h : arg ∉ days) :
    getDateString [a0, arg] today = .fatal dayDiagnostic := by
  rw [getDateString_eq, dayMapOf_get_other today arg h]
  rfl

/-! ## Whole runs -/

theorem run_readErr (w : World) (err : String)
    (hRead : w.readFile "client_secret.json" = .error err) :
    run w = ([.readFile "client_secret.json"],
      .fatal ("Unable to read client secret file: " ++ err)) := by
  simp [run, main, hRead, bind, Prog.bind, emit, fatalf]

theorem run_configErr (w : World) (b err : String)
    (hRead : w.readFile "client_secret.json" = .ok b)
    (hConfig : w.configFromJSON b = .error err) :
    run w = ([.readFile "client_secret.json"],
      .fatal ("Unable to parse client secret file to config: " ++ err)) := by
  simp [run, main, hRead, hConfig, bind, Prog.bind, emit, fatalf]

theorem run_clientFatal (w : World) (b msg : String) (config : Config) (tr : List Event)
    (hRead : w.readFile "client_secret.json" = .ok b)
    (hConfig : w.configFromJSON b = .ok config)
    (hClient : getClient w config [.readFile "client_secret.json"] = (tr, .fatal msg)) :
    run w = (tr, .fatal msg) := by
  simp [run, main, hRead, hConfig, hClient, bind, Prog.bind, emit]

theorem run_newErr (w : World) (b err : String) (config : Config) (tr : List Event)
    (client : Client)
    (hRead : w.readFile "client_secret.json" = .ok b)
    (hConfig : w.configFromJSON b = .ok config)
    (hClient : getClient w config [.readFile "client_secret.json"] = (tr, .ok client))
    (hNew : w.calendarNew client = some err) :
    run w = (tr, .fatal ("Unable to retrieve calendar Client " ++ err)) := by
  simp [run, main, hRead, hConfig, hClient, hNew, bind, Prog.bind, emit, fatalf]

/-- After a start-up that succeeds, a wrong number of arguments stops the
program with the argument diagnostic. -/
theorem run_wrongArgs (w : World) (b : String) (config : Config) (tr : List Event)
    (client : Client)
    (hRead : w.readFile "client_secret.json" = .ok b)
    (hConfig : w.configFromJSON b = .ok config)
    (hClient : getClient w config [.readFile "client_secret.json"] = (tr, .ok client))
    (hNew : w.calendarNew client = none)
    (hArgs : w.args.length ≠ 1) :
    run w = (tr, .fatal argsDiagnostic) := by
  simp [run, main, hRead, hConfig, hClient, hNew, hArgs, bind, Prog.bind, emit, fatalf,
    liftResult, sliceFrom1, World.osArgs]

/-- After a start-up that succeeds, a run with one argument is decided by
`getDateString` and the insert request. -/
theorem run_oneArg (w : World) (b arg : String) (config : Config) (tr : List Event)
    (client : Client)
    (hRead : w.readFile "client_secret.json" = .ok b)
    (hConfig : w.configFromJSON b = .ok config)
    (hClient : getClient w config [.readFile "client_secret.json"] = (tr, .ok client))
    (hNew : w.calendarNew client = none)
    (hArgs : w.args = [arg]) :
    run w =
      match getDateString [w.arg0, arg] w.now with
      | .fatal msg => (tr, .fatal msg)
      | .panic msg => (tr, .panic msg)
      | .ok dateString =>
        match w.insert client (calendarIdFromFile w) (mkEvent dateString) with
        | .error err =>
          (tr ++ [.insert (calendarIdFromFile w) (mkEvent dateString)],
            .fatal ("Unable to create event. " ++ err ++ "\n"))
        | .ok htmlLink =>
          (tr ++ [.insert (calendarIdFromFile w) (mkEvent dateString),
              .print ("Event created: " ++ htmlLink ++ "\n")], .ok ()) := by
  simp only [run, main, hRead, hConfig, hClient, hNew, hArgs, bind, Prog.bind, emit, fatalf,
    liftResult, sliceFrom1, World.osArgs, List.nil_append, List.length_singleton, ne_eq,
    not_true_eq_false, if_false, pure]
  cases getDateString [w.arg0, arg] w.now with
  | fatal msg => rfl
  | panic msg => rfl
  | ok dateString =>
    simp only []
    cases w.insert client (calendarIdFromFile w) (mkEvent dateString) with
    | error err => simp [fatalf]
    | ok htmlLink => simp [emit]

/-- What `getClient` can add to a trace and how it can end: no insert
request, and never a panic. -/
theorem getClient_summary (w : World) (config : Config) (tr : List Event) :
    ∃ added, (getClient w config tr).1 = tr ++ added ∧
      added.filter Event.isInsert = [] ∧ ∀ msg, (getClient w config tr).2 ≠ .panic msg := by
  cases hU : w.userCurrent with
  | error err =>
    rw [getClient_userErr w config err tr hU]
    exact ⟨[], by simp, rfl, by simp⟩
  | ok homeDir =>
    by_cases hFile : w.openFile (cacheFileOf homeDir) ≠ none ∨
        (w.decode (cacheFileOf homeDir)).2 ≠ none
    · cases hS : w.scan with
      | error e =>
        rw [getClient_scanErr w config homeDir tr e hS hU hFile]
        exact ⟨lookEvents homeDir ++ promptEvents w config,
          by simp only [List.append_assoc],
          by simp [lookEvents, promptEvents, Event.isInsert], by simp⟩
      | ok code =>
        cases hE : w.exchange config code with
        | error e =>
          rw [getClient_exchangeErr w config homeDir tr code e hS hE hU hFile]
          exact ⟨lookEvents homeDir ++ promptEvents w config ++ [.exchange code],
            by simp only [List.append_assoc],
            by simp [lookEvents, promptEvents, Event.isInsert], by simp⟩
        | ok tok =>
          cases hC : w.create (cacheFileOf homeDir) with
          | some e =>
            rw [getClient_createErr w config homeDir tr code e tok hS hE hC hU hFile]
            exact ⟨lookEvents homeDir ++ promptEvents w config ++ [.exchange code] ++
                saveEvents (cacheFileOf homeDir) tok,
              by simp only [List.append_assoc],
              by simp [lookEvents, promptEvents, saveEvents, Event.isInsert], by simp⟩
          | none =>
            rw [getClient_saved w config homeDir tr code tok hS hE hC hU hFile]
            exact ⟨lookEvents homeDir ++ promptEvents w config ++ [.exchange code] ++
                saveEvents (cacheFileOf homeDir) tok ++ [.encode (cacheFileOf homeDir) tok],
              by simp only [List.append_assoc],
              by simp [lookEvents, promptEvents, saveEvents, Event.isInsert], by simp⟩
    · push_neg at hFile
      obtain ⟨hO, hD⟩ := hFile
      have hD' : w.decode (cacheFileOf homeDir) = ((w.decode (cacheFileOf homeDir)).1, none) := by
        rw [← hD]
      rw [getClient_cached_eq w config homeDir _ tr hU hO hD']
      exact ⟨_, rfl, by simp [Event.isInsert], by simp⟩

/-- A run with a wrong number of arguments: the trace holds no insert
request and the process ends through `log.Fatalf`. -/
theorem run_wrongArgs_summary (w : World) (hArgs : w.args.length ≠ 1) :
    (run w).1.filter Event.isInsert = [] ∧ ∃ msg, (run w).2 = .fatal msg := by
  cases hR : w.readFile "client_secret.json" with
  | error err => rw [run_readErr w err hR]; exact ⟨rfl, _, rfl⟩
  | ok b =>
    cases hC : w.configFromJSON b with
    | error err => rw [run_configErr w b err hR hC]; exact ⟨rfl, _, rfl⟩
    | ok config =>
      obtain ⟨added, hT, hI, hP⟩ :=
        getClient_summary w config [.readFile "client_secret.json"]
      rcases hG : getClient w config [.readFile "client_secret.json"] with ⟨tr', r⟩
      rw [hG] at hT hP
      simp only at hT hP
      have hI' : List.filter Event.isInsert tr' = [] := by
        rw [hT, List.filter_append, hI]; rfl
      cases r with
      | panic msg => exact absurd rfl (hP msg)
      | fatal msg => rw [run_clientFatal w b msg config _ hR hC hG]; exact ⟨hI', _, rfl⟩
      | ok client =>
        cases hN : w.calendarNew client with
        | some err => rw [run_newErr w b err config _ client hR hC hG hN]; exact ⟨hI', _, rfl⟩
        | none => rw [run_wrongArgs w b config _ client hR hC hG hN hArgs]; exact ⟨hI', _, rfl⟩

/-- No run ends in a panic. -/
theorem run_no_panic (w : World) (msg : String) : (run w).2 ≠ .panic msg := by
  by_cases hArgs : w.args.length = 1
  · cases hR : w.readFile "client_secret.json" with
    | error err => rw [run_readErr w err hR]; simp
    | ok b =>
      cases hC : w.configFromJSON b with
      | error err => rw [run_configErr w b err hR hC]; simp
      | ok config =>
        obtain ⟨added, _, _, hP⟩ :=
          getClient_summary w config [.readFile "client_secret.json"]
        rcases hG : getClient w config [.readFile "client_secret.json"] with ⟨tr', r⟩
        rw [hG] at hP
        simp only at hP
        cases r with
        | panic msg => exact absurd rfl (hP msg)
        | fatal msg => rw [run_clientFatal w b msg config _ hR hC hG]; simp
        | ok client =>
          cases hN : w.calendarNew client with
          | some err => rw [run_newErr w b err config _ client hR hC hG hN]; simp
          | none =>
            obtain ⟨arg, hA⟩ := List.length_eq_one.mp hArgs
            rw [run_oneArg w b arg config _ client hR hC hG hN hA]
            rcases getDateString_cases w.arg0 arg w.now with h | ⟨ds, h⟩
            · rw [h]; simp
            · rw [h]
              cases hI : w.insert client (calendarIdFromFile w) (mkEvent ds) <;> simp [hI]
  · obtain ⟨_, m, hm⟩ := run_wrongArgs_summary w hArgs
    rw [hm]; simp

/-- A run with a wrong number of arguments and a valid token cache sends
nothing over the network. -/
theorem run_wrongArgs_cached (w : World) (homeDir : String) (t : Token)
    (hArgs : w.args.length ≠ 1)
    (hUser : w.userCurrent = .ok homeDir)
    (hOpen : w.openFile (cacheFileOf homeDir) = none)
    (hDecode : w.decode (cacheFileOf homeDir) = (t, none)) :
    (run w).1.filter Event.isNetwork = [] := by
  cases hR : w.readFile "client_secret.json" with
  | error err => rw [run_readErr w err hR]; rfl
  | ok b =>
    cases hC : w.configFromJSON b with
    | error err => rw [run_configErr w b err hR hC]; rfl
    | ok config =>
      have hG := getClient_cached_eq w config homeDir t [.readFile "client_secret.json"]
        hUser hOpen hDecode
      cases hN : w.calendarNew ⟨config, some t⟩ with
      | some err => rw [run_newErr w b err config _ _ hR hC hG hN]; rfl
      | none => rw [run_wrongArgs w b config _ _ hR hC hG hN hArgs]; rfl

/-- `tokenFromFile` returns a token and no error exactly when the file opens
and decodes. -/
theorem tokenFromFile_ok (w : World) (file : String) (t : Token) (tr : List Event)
    (h : (tokenFromFile w file tr).2 = .ok (some t, none)) :
    w.openFile file = none ∧ w.decode file = (t, none) := by
  simp only [tokenFromFile, bind, Prog.bind, emit, pure] at h
  cases hO : w.openFile file with
  | some err => simp [hO] at h
  | none =>
    rcases hD : w.decode file with ⟨t', e⟩
    simp [hO, hD] at h
    exact ⟨rfl, by rw [h.1, h.2]⟩

/-- `tokenFromFile` returns an error exactly when the file does not open or
does not decode. -/
theorem tokenFromFile_err (w : World) (file : String) (tok : Option Token) (err : String)
    (tr : List Event)
    (h : (tokenFromFile w file tr).2 = .ok (tok, some err)) :
    w.openFile file ≠ none ∨ (w.decode file).2 ≠ none := by
  simp only [tokenFromFile, bind, Prog.bind, emit, pure] at h
  cases hO : w.openFile file with
  | some e => left; simp
  | none =>
    right
    rcases hD : w.decode file with ⟨t', e⟩
    simp [hO, hD] at h
    simp [h.2]

/-! ## The date path when the days are in step -/

/-- With the days in step the entry under the code of weekday `k` is the day
of offset `(k - today's weekday) mod 7`. -/
theorem dayMapOf_get_in_step (t : Time) (k : Int) (h : daysInStep t)
    (hk0 : 0 ≤ k) (hk7 : k < 7) :
    (dayMapOf t).get (dayCode k) = t.AddDate 0 0 (((k - t.Weekday) % 7).toNat : Nat) := by
  rw [dayMapOf_in_step t h]
  obtain ⟨hw0, hw7⟩ := absWeekday_range t.abs
  have hw : t.Weekday = 0 ∨ t.Weekday = 1 ∨ t.Weekday = 2 ∨ t.Weekday = 3 ∨ t.Weekday = 4 ∨
      t.Weekday = 5 ∨ t.Weekday = 6 := by
    simp only [Time.Weekday]; omega
  have hk : k = 0 ∨ k = 1 ∨ k = 2 ∨ k = 3 ∨ k = 4 ∨ k = 5 ∨ k = 6 := by omega
  rcases hw with h | h | h | h | h | h | h <;> rw [h] <;>
    rcases hk with h' | h' | h' | h' | h' | h' | h' <;> subst h' <;> rfl

/-- With the days in step and none of them the zero `Time`, each of the seven
codes resolves to the date of the one day of the loop that falls on its
weekday. -/
theorem getDateString_in_step (t : Time) (a0 : String) (k : Int) (h : daysInStep t)
    (hz : noZeroDay t) (hk0 : 0 ≤ k) (hk7 : k < 7) :
    ((k - t.Weekday) % 7).toNat < 7 ∧
    getDateString [a0, dayCode k] t =
        .ok ((t.AddDate 0 0 (((k - t.Weekday) % 7).toNat : Nat)).Format dateOnly) ∧
      (t.AddDate 0 0 (((k - t.Weekday) % 7).toNat : Nat)).Weekday = k := by
  have hi0 : 0 ≤ (k - t.Weekday) % 7 := by omega
  have hi6 : (k - t.Weekday) % 7 ≤ 6 := by omega
  have hlt : ((k - t.Weekday) % 7).toNat < 7 := by omega
  have hnat : (((k - t.Weekday) % 7).toNat : Int) = (k - t.Weekday) % 7 :=
    Int.toNat_of_nonneg hi0
  refine ⟨hlt, ?_, ?_⟩
  · rw [getDateString_eq, dayMapOf_get_in_step t k h hk0 hk7, hz _ hlt]
    rfl
  · rw [Weekday_in_step t h _ hlt, hnat]
    omega

/-- The entry of a code is the day of offset 5 when that day falls on the
code's weekday and the day of offset 6 does not: the earlier offsets do not
matter. -/
theorem dayMapOf_get_five (t : Time) (arg : String)
    (h5 : dayCode (t.AddDate 0 0 (5 : Nat)).Weekday = arg)
    (h6 : dayCode (t.AddDate 0 0 (6 : Nat)).Weekday ≠ arg) :
    (dayMapOf t).get arg = t.AddDate 0 0 (5 : Nat) := by
  have hr : List.range 7 = [0, 1, 2, 3, 4, 5, 6] := by decide
  simp only [dayMapOf, hr, List.foldl, DayMap.get_set]
  rw [if_neg (fun e => h6 e.symm), if_pos h5.symm]

/-- The code of a weekday that is not Monday is not `mon`. -/
theorem dayCode_ne_mon (d : Int) (h0 : 0 ≤ d) (h7 : d < 7)
    (h : Weekday.String d ≠ "Monday") : dayCode d ≠ "mon" := by
  have hc : d = 0 ∨ d = 1 ∨ d = 2 ∨ d = 3 ∨ d = 4 ∨ d = 5 ∨ d = 6 := by omega
  rcases hc with e | e | e | e | e | e | e <;> subst e <;>
    first | decide | exact absurd rfl h

/-- A reading whose weekday is named Wednesday has weekday 3. -/
theorem weekday_of_wednesday (t : Time) (h : Weekday.String t.Weekday = "Wednesday") :
    t.Weekday = 3 := by
  obtain ⟨hw0, hw7⟩ := absWeekday_range t.abs
  have hc : t.Weekday = 0 ∨ t.Weekday = 1 ∨ t.Weekday = 2 ∨
      t.Weekday = 3 ∨ t.Weekday = 4 ∨ t.Weekday = 5 ∨ t.Weekday = 6 := by
    simp only [Time.Weekday]; omega
  rcases hc with e | e | e | e | e | e | e <;> rw [e] at h <;>
    first | exact e | exact absurd h (by decide)

/-! ## Weeks without a change of local time are in step -/

theorem plusDays_not_zero (t : Time) (i : Int) (hs : 0 < t.sec) (h0 : 0 ≤ i) :
    (t.plusDays i).IsZero = false := by
  have hd : secondsPerDay = 86400 := by decide
  have : t.sec + secondsPerDay * i ≠ 0 := by rw [hd]; omega
  simp [Time.IsZero, Time.plusDays, this]

/-- In a quiet week the seven days of the loop are in step with the
calendar. -/
theorem quietWeek_daysInStep (t : Time) (hq : quietWeek t)
    (hn : 0 ≤ t.nsec ∧ t.nsec < 1000000000) : daysInStep t := by
  intro i hi
  have h0 : (0 : Int) ≤ i := Int.natCast_nonneg i
  have h6 : (i : Int) ≤ 6 := by omega
  rw [AddDate_quiet t i hq hn h0 h6]
  simp only [Time.dayNumber, plusDays_abs t i hq h0 h6, secondsPerDay, secondsPerHour,
    secondsPerMinute]
  omega

/-- In a quiet week after the start of year 1 none of the seven days is the
zero `Time`. -/
theorem quietWeek_noZeroDay (t : Time) (hq : quietWeek t)
    (hn : 0 ≤ t.nsec ∧ t.nsec < 1000000000) (hs : 0 < t.sec) : noZeroDay t := by
  intro i hi
  have h0 : (0 : Int) ≤ i := Int.natCast_nonneg i
  have h6 : (i : Int) ≤ 6 := by omega
  rw [AddDate_quiet t i hq hn h0 h6]
  exact plusDays_not_zero t i hs h0

theorem mem_days (arg : String) (h : arg ∈ days) :
    ∃ k : Int, 0 ≤ k ∧ k < 7 ∧ arg = dayCode k := by
  simp only [days, List.mem_cons, List.mem_singleton, List.not_mem_nil, or_false] at h
  rcases h with h | h | h | h | h | h | h
  · exact ⟨0, by decide, by decide, h⟩
  · exact ⟨1, by decide, by decide, h⟩
  · exact ⟨2, by decide, by decide, h⟩
  · exact ⟨3, by decide, by decide, h⟩
  · exact ⟨4, by decide, by decide, h⟩
  · exact ⟨5, by decide, by decide, h⟩
  · exact ⟨6, by decide, by decide, h⟩

/-- The trace `getClient` leaves when it returns holds no insert request. -/
theorem getClient_trace_no_insert (w : World) (config : Config) (tr tr' : List Event)
    (r : Result Client) (h : getClient w config tr = (tr', r))
    (htr : tr.filter Event.isInsert = []) : tr'.filter Event.isInsert = [] := by
  obtain ⟨added, hT, hI, _⟩ := getClient_summary w config tr
  rw [h] at hT
  simp only at hT
  rw [hT, List.filter_append, htr, hI]
  rfl

/-- With the client secret in place, no usable token cache and a code read
from standard input, every run sends the code to the authorisation server,
whatever its arguments. -/
theorem run_exchange_sent (w : World) (b code : String) (config : Config) (homeDir : String)
    (hRead : w.readFile "client_secret.json" = .ok b)
    (hConfig : w.configFromJSON b = .ok config)
    (hUser : w.userCurrent = .ok homeDir)
    (hFile : w.openFile (cacheFileOf homeDir) ≠ none ∨ (w.decode (cacheFileOf homeDir)).2 ≠ none)
    (hScan : w.scan = .ok code)
    (hArgs : w.args.length ≠ 1) :
    (run w).1.filter Event.isNetwork = [.exchange code] := by
  have hl : ∀ tok, List.filter Event.isNetwork ([Event.readFile "client_secret.json"] ++
      lookEvents homeDir ++ promptEvents w config ++ [.exchange code] ++
      saveEvents (cacheFileOf homeDir) tok) = [.exchange code] := by
    intro tok
    simp [lookEvents, promptEvents, saveEvents, Event.isNetwork]
  cases hE : w.exchange config code with
  | error err =>
    rw [run_clientFatal w b _ config _ hRead hConfig
      (getClient_exchangeErr w config homeDir _ code err hScan hE hUser hFile)]
    simp [lookEvents, promptEvents, Event.isNetwork]
  | ok tok =>
    cases hC : w.create (cacheFileOf homeDir) with
    | some err =>
      rw [run_clientFatal w b _ config _ hRead hConfig
        (getClient_createErr w config homeDir _ code err tok hScan hE hC hUser hFile)]
      exact hl tok
    | none =>
      have hG := getClient_saved w config homeDir [.readFile "client_secret.json"] code tok
        hScan hE hC hUser hFile
      have hl' : List.filter Event.isNetwork ([Event.readFile "client_secret.json"] ++
          lookEvents homeDir ++ promptEvents w config ++ [.exchange code] ++
          saveEvents (cacheFileOf homeDir) tok ++ [.encode (cacheFileOf homeDir) tok]) =
          [.exchange code] := by
        simp [lookEvents, promptEvents, saveEvents, Event.isNetwork]
      cases hN : w.calendarNew ⟨config, some tok⟩ with
      | some err => rw [run_newErr w b err config _ _ hRead hConfig hG hN]; exact hl'
      | none => rw [run_wrongArgs w b config _ _ hRead hConfig hG hN hArgs]; exact hl'

/-! # The claims of the specification -/

set_option maxRecDepth 8000

/-- C1, the code at the failing input.  Wednesday 4 September 2024, 00:30
in Santiago: four days ahead the wall clock reading 00:30 of Sunday
8 September does not exist, `AddDate(0, 0, 4)` lands on Saturday 23:30, and
`sun`, one of the seven codes, gets no date: `getDateString` stops with the
diagnostic that lists `sun` as valid, and so does the whole run, which sends no
insert request.  The six other codes get the date of their day. -/
theorem C1_sun_refused_before_clock_change :
    "sun" ∈ days ∧
    santiagoWednesday.Format RFC3339 = "2024-09-04T00:30:00-04:00" ∧
    (santiagoWednesday.AddDate 0 0 3).Format RFC3339 = "2024-09-07T00:30:00-04:00" ∧
    (santiagoWednesday.AddDate 0 0 4).Format RFC3339 = "2024-09-07T23:30:00-04:00" ∧
    (santiagoWednesday.AddDate 0 0 5).Format RFC3339 = "2024-09-09T00:30:00-03:00" ∧
    getDateString ["wfh", "sun"] santiagoWednesday = .fatal dayDiagnostic ∧
    (run (runAt santiagoWednesday ["sun"])).2 = .fatal dayDiagnostic ∧
    (run (runAt santiagoWednesday ["sun"])).1.filter Event.isInsert = [] ∧
    ["mon", "tue", "wed", "thu", "fri", "sat"].map
        (fun code => getDateString ["wfh", code] santiagoWednesday) =
      [.ok "2024-09-09", .ok "2024-09-10", .ok "2024-09-04", .ok "2024-09-05",
        .ok "2024-09-06", .ok "2024-09-07"] := by
  decide

/-- C2, the code at the failing input.  Wednesday 26 March 2025, 00:30 in
the Azores: four days ahead the wall clock reading 00:30 of Sunday 30 March
does not exist and `AddDate(0, 0, 4)` lands on Saturday 23:30; `sun` is one of
the seven codes, and `getDateString` stops with the diagnostic that names `sun`
as valid; so does a run of the whole program, which sends no insert request. -/
theorem C2_recognized_code_refused_at_azores :
    "sun" ∈ days ∧
    azoresWednesday.Format RFC3339 = "2025-03-26T00:30:00-01:00" ∧
    (azoresWednesday.AddDate 0 0 4).Format RFC3339 = "2025-03-29T23:30:00-01:00" ∧
    getDateString ["wfh", "sun"] azoresWednesday = .fatal dayDiagnostic ∧
    dayDiagnostic =
      "Your day must be any of 'sun', 'mon', 'tue', 'wed', 'thu', 'fri', or 'sat'" ∧
    (run (runAt azoresWednesday ["sun"])).2 = .fatal dayDiagnostic ∧
    (run (runAt azoresWednesday ["sun"])).1.filter Event.isInsert = [] := by
  decide

/-- C3, the code at the failing input.  Wednesday 4 September 2024, 00:30
in Santiago: the map has six entries, no key `sun`, and the entry of `sat`
written at offset 3 is overwritten at offset 4. -/
theorem C3_six_entries_before_clock_change :
    (makeDayMap santiagoWednesday).bind (fun dayMap => .ok (dayMap.map Prod.fst)) =
      .ok ["wed", "thu", "fri", "sat", "mon", "tue"] ∧
    (makeDayMap santiagoWednesday).bind (fun dayMap => .ok (dayMap.get "sat")) =
      .ok (santiagoWednesday.AddDate 0 0 4) ∧
    santiagoWednesday.AddDate 0 0 4 ≠ santiagoWednesday.AddDate 0 0 3 := by
  decide

/-- C4, amended.  A run with zero or with more than one argument never sends
the event insert request and always ends through `log.Fatalf`.  When start-up
succeeds (the client secret is read and parsed, `getClient` returns a client,
`calendar.New` succeeds) the message is the "must provide a day" diagnostic.
With a valid token cache nothing at all is sent over the network.  The
argument count is checked only after `getClient`: with no usable token cache
and a code read from standard input, the code is sent to the authorisation
server before the check. -/
theorem C4_wrong_arg_count_no_insert (w : World) (hArgs : w.args.length ≠ 1) :
    (run w).1.filter Event.isInsert = [] ∧
    (∃ msg, (run w).2 = .fatal msg) ∧
    (∀ b config tr client,
      w.readFile "client_secret.json" = .ok b →
      w.configFromJSON b = .ok config →
      getClient w config [.readFile "client_secret.json"] = (tr, .ok client) →
      w.calendarNew client = none →
      run w = (tr, .fatal argsDiagnostic)) ∧
    (∀ homeDir t,
      w.userCurrent = .ok homeDir →
      w.openFile (cacheFileOf homeDir) = none →
      w.decode (cacheFileOf homeDir) = (t, none) →
      (run w).1.filter Event.isNetwork = []) ∧
    (∀ b config homeDir code,
      w.readFile "client_secret.json" = .ok b →
      w.configFromJSON b = .ok config →
      w.userCurrent = .ok homeDir →
      (w.openFile (cacheFileOf homeDir) ≠ none ∨ (w.decode (cacheFileOf homeDir)).2 ≠ none) →
      w.scan = .ok code →
      (run w).1.filter Event.isNetwork = [.exchange code]) :=
  ⟨(run_wrongArgs_summary w hArgs).1, (run_wrongArgs_summary w hArgs).2,
    fun b config tr client hR hC hG hN => run_wrongArgs w b config tr client hR hC hG hN hArgs,
    fun homeDir t hU hO hD => run_wrongArgs_cached w homeDir t hArgs hU hO hD,
    fun b config homeDir code hR hC hU hF hS =>
      run_exchange_sent w b code config homeDir hR hC hU hF hS hArgs⟩

/-- C4, witness: a later run (valid token cache) with two arguments. -/
theorem C4_wrong_arg_count_no_insert_witness :
    (laterRun ["mon", "tue"]).args.length ≠ 1 ∧
    (run (laterRun ["mon", "tue"])).1.filter Event.isInsert = [] ∧
    (run (laterRun ["mon", "tue"])).2 = .fatal argsDiagnostic ∧
    (run (laterRun ["mon", "tue"])).1.filter Event.isNetwork = [] :=
  have h := C4_wrong_arg_count_no_insert (laterRun ["mon", "tue"]) (by decide)
  ⟨by decide, h.1,
    congrArg Prod.snd (h.2.2.1 "\x7b\"installed\":\x7b\x7d\x7d" sampleConfig
      ([.readFile "client_secret.json"] ++ lookEvents "/home/max")
      ⟨sampleConfig, some sampleToken⟩ rfl rfl (by decide) rfl),
    h.2.2.2.1 "/home/max" sampleToken rfl rfl rfl⟩

/-- C4, as stated, fails: a run with no argument and no token cache sends the
authorisation code to the server before it stops with the diagnostic; and a
run with no argument and no client secret file stops with another message. -/
theorem C4_counterexample_exchange_before_check :
    (firstRun []).args.length = 0 ∧
    (run (firstRun [])).2 = .fatal argsDiagnostic ∧
    (run (firstRun [])).1.filter Event.isNetwork = [.exchange "4/0Ab"] ∧
    (noSecretRun []).args.length = 0 ∧
    (run (noSecretRun [])).2 =
      .fatal "Unable to read client secret file: open client_secret.json: no such file or directory" := by
  decide

/-- C5, amended.  For every resolved time `t`, cutting its RFC3339 text at
the first `T` never fails and gives exactly what the date-only layout
"2006-01-02" writes for `t`; that is the string `getDateString` returns.  When
the year of `t` is in 0..9999 the string has 10 characters: four digits, a
hyphen, two digits, a hyphen, two digits.  (A year past 9999 is written with
more than four digits, a year before 0 with a minus sign.) -/
theorem C5_date_string_is_date_only (t : Time) :
    sliceTo (t.Format RFC3339) (strings.Index (t.Format RFC3339) "T") =
      .ok (t.Format dateOnly) ∧
    (∀ (a0 arg : String) (today : Time) (dayMap : DayMap) (dateString : String),
      makeDayMap today = .ok dayMap → dayMap.get arg = t →
      getDateString [a0, arg] today = .ok dateString → dateString = t.Format dateOnly) ∧
    (0 ≤ t.Date.1 → t.Date.1 ≤ 9999 →
      (t.Format dateOnly).length = 10 ∧
      ∃ y m d : List Char, (t.Format dateOnly).data = y ++ '-' :: (m ++ '-' :: d) ∧
        y.length = 4 ∧ m.length = 2 ∧ d.length = 2 ∧
        ∀ c ∈ y ++ m ++ d, c.isDigit = true) := by
  refine ⟨slice_format t, ?_, ?_⟩
  · intro a0 arg today dayMap dateString hm hg hd
    rw [makeDayMap_eq] at hm
    have hm' : dayMapOf today = dayMap := by simpa using hm
    rw [getDateString_eq, hm', hg] at hd
    by_cases hz : t.IsZero = true
    · simp [hz] at hd
    · simp only [hz, if_false] at hd
      have hd' : t.Format dateOnly = dateString := by simpa using hd
      exact hd'.symm
  · intro hy0 hy1
    obtain ⟨m1, m2, d1, d2⟩ := absDate_range t.abs
    have ly : (appendInt [] t.Date.1 4).length = 4 :=
      appendInt_length _ 3 hy0 (by norm_num; omega)
    have lm : (appendInt [] t.Date.2.1 2).length = 2 :=
      appendInt_length _ 1 (by simp only [Time.Date]; omega)
        (by simp only [Time.Date]; norm_num; omega)
    have ld : (appendInt [] t.Date.2.2 2).length = 2 :=
      appendInt_length _ 1 (by simp only [Time.Date]; omega)
        (by simp only [Time.Date]; norm_num; omega)
    refine ⟨?_, appendInt [] t.Date.1 4, appendInt [] t.Date.2.1 2, appendInt [] t.Date.2.2 2,
      format_dateOnly_data t, ly, lm, ld, ?_⟩
    · simp only [String.length, format_dateOnly_data, List.length_append, List.length_cons,
        ly, lm, ld]
    · intro c hc
      simp only [List.mem_append] at hc
      rcases hc with (hc | hc) | hc
      · exact appendInt_digits _ _ hy0 c hc
      · exact appendInt_digits _ _ (by simp only [Time.Date]; omega) c hc
      · exact appendInt_digits _ _ (by simp only [Time.Date]; omega) c hc

/-- C5, witness: Monday 9 September 2024, the day `mon` resolves to on
Wednesday 4 September 2024. -/
theorem C5_date_string_is_date_only_witness :
    (utcWednesday.plusDays 5).Format dateOnly = "2024-09-09" ∧
    ((utcWednesday.plusDays 5).Format dateOnly).length = 10 :=
  ⟨by decide,
    ((C5_date_string_is_date_only (utcWednesday.plusDays 5)).2.2 (by decide) (by decide)).1⟩

/-- C5, as stated, fails: on 1 January 10000, a Saturday, `sat` resolves to
today and the string returned has 11 characters. -/
theorem C5_counterexample_year_10000 :
    getDateString ["wfh", "sat"] year10000 = .ok "10000-01-01" ∧
    ("10000-01-01" : String).length = 11 := by
  decide

/-- C6, amended.  With no usable cache file (`tokenFromFile` returns an
error) `getClient` enters `getTokenFromWeb` exactly once.  When that flow
returns a token (a code is read and the exchange succeeds) `saveToken` is
entered exactly once, after the exchange, with the cache path and that token:
it creates the file and, when the creation succeeds, encodes the token into
it.  When the flow does not return a token the process stops and `saveToken`
is never entered. -/
theorem C6_no_cache_one_web_flow (w : World) (config : Config) (homeDir : String)
    (tok0 : Option Token) (err0 : String) (tr0 tr : List Event)
    (hUser : w.userCurrent = .ok homeDir)
    (hFile : (tokenFromFile w (cacheFileOf homeDir) tr0).2 = .ok (tok0, some err0)) :
    ∃ added, (getClient w config tr).1 = tr ++ added ∧
      (added.filter Event.isGetTokenFromWeb).length = 1 ∧
      (∀ code tok, w.scan = .ok code → w.exchange config code = .ok tok →
        added.filter Event.isSaveToken = [.saveToken (cacheFileOf homeDir) tok] ∧
        added = lookEvents homeDir ++ promptEvents w config ++ [.exchange code] ++
          saveEvents (cacheFileOf homeDir) tok ++
          (if w.create (cacheFileOf homeDir) = none then [.encode (cacheFileOf homeDir) tok]
            else [])) ∧
      ((∀ code tok, w.scan = .ok code → w.exchange config code ≠ .ok tok) →
        added.filter Event.isSaveToken = [] ∧ ∃ msg, (getClient w config tr).2 = .fatal msg) := by
  have hF := tokenFromFile_err w _ tok0 err0 tr0 hFile
  cases hS : w.scan with
  | error e =>
    rw [getClient_scanErr w config homeDir tr e hS hUser hF]
    refine ⟨lookEvents homeDir ++ promptEvents w config, by simp only [List.append_assoc],
      by simp [lookEvents, promptEvents, Event.isGetTokenFromWeb], ?_, ?_⟩
    · intro code tok h; exact absurd h (by simp)
    · intro _
      exact ⟨by simp [lookEvents, promptEvents, Event.isSaveToken], _, rfl⟩
  | ok code =>
    cases hE : w.exchange config code with
    | error e =>
      rw [getClient_exchangeErr w config homeDir tr code e hS hE hUser hF]
      refine ⟨lookEvents homeDir ++ promptEvents w config ++ [.exchange code],
        by simp only [List.append_assoc],
        by simp [lookEvents, promptEvents, Event.isGetTokenFromWeb], ?_, ?_⟩
      · intro code' tok h h'
        have hc : code = code' := by simpa using h
        subst hc
        rw [hE] at h'
        exact absurd h' (by simp)
      · intro _
        exact ⟨by simp [lookEvents, promptEvents, Event.isSaveToken], _, rfl⟩
    | ok tok =>
      cases hC : w.create (cacheFileOf homeDir) with
      | some e =>
        rw [getClient_createErr w config homeDir tr code e tok hS hE hC hUser hF]
        refine ⟨lookEvents homeDir ++ promptEvents w config ++ [.exchange code] ++
            saveEvents (cacheFileOf homeDir) tok, by simp only [List.append_assoc],
          by simp [lookEvents, promptEvents, saveEvents, Event.isGetTokenFromWeb], ?_, ?_⟩
        · intro code' tok' h h'
          have hc : code = code' := by simpa using h
          subst hc
          rw [hE] at h'
          have ht : tok = tok' := by simpa using h'
          subst ht
          exact ⟨by simp [lookEvents, promptEvents, saveEvents, Event.isSaveToken], by simp⟩
        · intro h
          exact absurd hE (h code tok rfl)
      | none =>
        rw [getClient_saved w config homeDir tr code tok hS hE hC hUser hF]
        refine ⟨lookEvents homeDir ++ promptEvents w config ++ [.exchange code] ++
            saveEvents (cacheFileOf homeDir) tok ++ [.encode (cacheFileOf homeDir) tok],
          by simp only [List.append_assoc],
          by simp [lookEvents, promptEvents, saveEvents, Event.isGetTokenFromWeb], ?_, ?_⟩
        · intro code' tok' h h'
          have hc : code = code' := by simpa using h
          subst hc
          rw [hE] at h'
          have ht : tok = tok' := by simpa using h'
          subst ht
          exact ⟨by simp [lookEvents, promptEvents, saveEvents, Event.isSaveToken], by simp⟩
        · intro h
          exact absurd hE (h code tok rfl)

/-- C6, witness: the first run, where the cache file does not exist yet. -/
theorem C6_no_cache_one_web_flow_witness :
    (tokenFromFile (firstRun ["mon"]) (cacheFileOf "/home/max") []).2 =
      .ok (none, some "no such file or directory") ∧
    ((getClient (firstRun ["mon"]) sampleConfig []).1.filter Event.isGetTokenFromWeb).length = 1 ∧
    (getClient (firstRun ["mon"]) sampleConfig []).1.filter Event.isSaveToken =
      [.saveToken (cacheFileOf "/home/max") sampleToken] := by
  obtain ⟨added, h1, h2, h3, _⟩ := C6_no_cache_one_web_flow (firstRun ["mon"]) sampleConfig
    "/home/max" none "no such file or directory" [] [] rfl (by decide)
  rw [List.nil_append] at h1
  rw [h1]
  exact ⟨by decide, h2, (h3 "4/0Ab" sampleToken rfl rfl).1⟩

/-- C6, as stated, fails: there is no cache file, the server refuses the code,
and no token is saved. -/
theorem C6_counterexample_exchange_refused :
    (tokenFromFile (refusedRun ["mon"]) (cacheFileOf "/home/max") []).2 =
      .ok (none, some "no such file or directory") ∧
    ((getClient (refusedRun ["mon"]) sampleConfig []).1.filter Event.isGetTokenFromWeb).length = 1 ∧
    ((getClient (refusedRun ["mon"]) sampleConfig []).1.filter Event.isSaveToken).length = 0 ∧
    (getClient (refusedRun ["mon"]) sampleConfig []).2 =
      .fatal "Unable to retrieve token from web oauth2: cannot fetch token: 400 Bad Request" := by
  decide

/-- C7.  With a valid cache file (`tokenFromFile` returns a token and no
error) `getClient` adds to the trace only the creation of the directory and
the opening of the file: no prompt is printed, nothing is read from standard
input, the authorisation server is not contacted, no file is created or
written, and neither `getTokenFromWeb` nor `saveToken` is entered.  The client
returned holds exactly the token read. -/
theorem C7_cached_token_used_as_is (w : World) (config : Config) (homeDir : String)
    (t : Token) (tr0 tr : List Event)
    (hUser : w.userCurrent = .ok homeDir)
    (hFile : (tokenFromFile w (cacheFileOf homeDir) tr0).2 = .ok (some t, none)) :
    getClient w config tr = (tr ++ lookEvents homeDir, .ok ⟨config, some t⟩) ∧
      (lookEvents homeDir).filter Event.isAuthFlow = [] ∧
      (lookEvents homeDir).filter Event.isNetwork = [] := by
  obtain ⟨hO, hD⟩ := tokenFromFile_ok w _ t tr0 hFile
  exact ⟨getClient_cached_eq w config homeDir t tr hUser hO hD, rfl, rfl⟩

/-- C7, witness: a later run, where the cache holds `sampleToken`. -/
theorem C7_cached_token_used_as_is_witness :
    getClient (laterRun ["mon"]) sampleConfig [] =
      ([.mkdirAll "/home/max/.credentials", .openFile cachePath],
        .ok ⟨sampleConfig, some sampleToken⟩) :=
  (C7_cached_token_used_as_is (laterRun ["mon"]) sampleConfig "/home/max" sampleToken [] []
    rfl (by decide)).1

/-- C9, the code at the failing input: the cache file is created, writing
the token to it fails, and the run goes on, inserts the event and ends with
exit status 0. -/
theorem C9_encode_failure_ignored :
    (diskFullRun ["mon"]).encode cachePath sampleToken = some "write: no space left on device" ∧
    (run (diskFullRun ["mon"])).2 = .ok () ∧
    exitStatus (run (diskFullRun ["mon"])).2 = 0 ∧
    (run (diskFullRun ["mon"])).1.filter Event.isInsert =
      [.insert "team@group.calendar.google.com" (mkEvent "2024-09-09")] := by
  decide

/-- C10.  No run of `main` ends in a panic, whatever the arguments and the
clock; `getDateString` called with one argument never panics, while called
without one it would, at `os.Args[1]`; the weekday name cut by `[:3]` in
`makeDayMap` has at least three characters at every offset and the map is
always built; the index of `T` in the RFC3339 text of any time is not -1 and
lies within the text, so the slice `[:timeIdx]` is in range. -/
theorem C10_no_index_out_of_range :
    (∀ (w : World) (msg : String), (run w).2 ≠ .panic msg) ∧
    (∀ (a0 arg : String) (today : Time) (msg : String),
      getDateString [a0, arg] today ≠ .panic msg) ∧
    (∀ (a0 : String) (today : Time),
      getDateString [a0] today = .panic "index out of range") ∧
    (∀ (today : Time) (i : Nat),
      3 ≤ (strings.ToLower (Weekday.String (today.AddDate 0 0 i).Weekday)).length) ∧
    (∀ today : Time, ∃ dayMap, makeDayMap today = .ok dayMap) ∧
    (∀ t : Time, strings.Index (t.Format RFC3339) "T" ≠ -1 ∧
      0 ≤ strings.Index (t.Format RFC3339) "T" ∧
      strings.Index (t.Format RFC3339) "T" ≤ (t.Format RFC3339).length ∧
      ∃ dateString, sliceTo (t.Format RFC3339) (strings.Index (t.Format RFC3339) "T") =
        .ok dateString) := by
  refine ⟨run_no_panic, ?_, ?_, ?_, fun today => ⟨_, makeDayMap_eq today⟩, ?_⟩
  · intro a0 arg today msg
    rcases getDateString_cases a0 arg today with h | ⟨ds, h⟩ <;> rw [h] <;> simp
  · intro a0 today
    unfold getDateString
    rw [makeDayMap_eq]
    rfl
  · intro today i
    have hr := absWeekday_range (today.AddDate 0 0 i).abs
    exact weekday_name_length _ hr.1 hr.2
  · intro t
    have hlen : ((t.Format dateOnly).length : Int) ≤ (t.Format RFC3339).length := by
      simp only [String.length, format_RFC3339_data, List.length_append]
      omega
    rw [index_T_format]
    refine ⟨by omega, by omega, hlen, t.Format dateOnly, ?_⟩
    rw [← index_T_format]
    exact slice_format t

/-! # Further properties

The date path of a week whose days are in step with the calendar, the
failures that do stop a run, and the test for a missing key. -/

/-- When the seven days `today.AddDate(0, 0, i)`, `i` in 0..6, are in step
with the calendar, the map of `makeDayMap` has exactly seven entries, its keys
are the seven codes, each once, and its values, in the order the loop writes
them, are those seven days, each on the calendar day after the one before; no
entry is overwritten. -/
theorem in_step_map_has_seven_days (today : Time) (h : daysInStep today) :
    ∃ dayMap, makeDayMap today = .ok dayMap ∧ dayMap.length = 7 ∧
      (dayMap.map Prod.fst).Perm days ∧
      dayMap.map Prod.snd = (List.range 7).map (fun i => today.AddDate 0 0 i) ∧
      ∀ i : Nat, i < 6 →
        (today.AddDate 0 0 (i + 1 : Nat)).dayNumber = (today.AddDate 0 0 i).dayNumber + 1 := by
  have hr : List.range 7 = [0, 1, 2, 3, 4, 5, 6] := by decide
  refine ⟨dayMapOf today, makeDayMap_eq today, ?_, ?_, ?_, ?_⟩
  · rw [dayMapOf_in_step today h]; rfl
  · rw [dayMapOf_in_step today h]
    obtain ⟨hw0, hw7⟩ := absWeekday_range today.abs
    have hw : today.Weekday = 0 ∨ today.Weekday = 1 ∨ today.Weekday = 2 ∨
        today.Weekday = 3 ∨ today.Weekday = 4 ∨ today.Weekday = 5 ∨ today.Weekday = 6 := by
      simp only [Time.Weekday]; omega
    rcases hw with h | h | h | h | h | h | h <;> rw [h] <;> simp only [List.map] <;> decide
  · rw [dayMapOf_in_step today h, hr]
    rfl
  · intro i hi
    rw [h (i + 1) (by omega), h i (by omega)]
    push_cast
    omega

/-- Witness: the map of Wednesday 4 September 2024 in UTC. -/
theorem in_step_map_has_seven_days_witness :
    daysInStep utcWednesday ∧
    ∃ dayMap, makeDayMap utcWednesday = .ok dayMap ∧ dayMap.length = 7 ∧
      (dayMap.map Prod.fst).Perm days ∧
      dayMap.map Prod.snd = (List.range 7).map (fun i => utcWednesday.AddDate 0 0 i) ∧
      ∀ i : Nat, i < 6 →
        (utcWednesday.AddDate 0 0 (i + 1 : Nat)).dayNumber =
          (utcWednesday.AddDate 0 0 i).dayNumber + 1 :=
  ⟨by decide, in_step_map_has_seven_days utcWednesday (by decide)⟩

/-- When no change of local time falls near the week ahead (no transition of
the zone table from one day before now to seven days after) the seven days of
the loop are in step with the calendar, `AddDate(0, 0, i)` being the instant
`i` whole days after now; after the start of year 1 none of them is the zero
`Time`. -/
theorem quiet_week_is_in_step (today : Time) (hq : quietWeek today)
    (hn : 0 ≤ today.nsec ∧ today.nsec < 1000000000) :
    daysInStep today ∧
    (∀ i : Nat, i < 7 → today.AddDate 0 0 i = today.plusDays i) ∧
    (0 < today.sec → noZeroDay today) :=
  ⟨quietWeek_daysInStep today hq hn,
    fun i hi => AddDate_quiet today i hq hn (Int.natCast_nonneg i) (by omega),
    fun hs => quietWeek_noZeroDay today hq hn hs⟩

/-- Witness: Wednesday 4 September 2024, 00:30 in Santiago is not a quiet
week; Wednesday 11 September 2024, 00:30 in Santiago is. -/
theorem quiet_week_is_in_step_witness :
    ¬ quietWeek santiagoWednesday ∧
    quietWeek (santiagoWednesday.plusDays 7) ∧
    daysInStep (santiagoWednesday.plusDays 7) ∧
    noZeroDay (santiagoWednesday.plusDays 7) :=
  have h := quiet_week_is_in_step (santiagoWednesday.plusDays 7) (by decide) (by decide)
  ⟨by decide, by decide, h.1, h.2.2 (by decide)⟩

/-- The failures that do stop a run.  An unreadable or malformed client
secret, a failure inside `getClient` (no home directory, no code read, the
exchange refused, the cache file not created), a failure of `calendar.New`,
a wrong number of arguments, an unrecognised day and a failed insert each end
the process through `log.Fatalf`, exit status 1; but for the failed insert,
no insert request is sent before. -/
theorem failures_that_stop_the_run (w : World) :
    (∀ err, w.readFile "client_secret.json" = .error err →
      (run w).2 = .fatal ("Unable to read client secret file: " ++ err) ∧
      (run w).1.filter Event.isInsert = []) ∧
    (∀ b err, w.readFile "client_secret.json" = .ok b → w.configFromJSON b = .error err →
      (run w).2 = .fatal ("Unable to parse client secret file to config: " ++ err) ∧
      (run w).1.filter Event.isInsert = []) ∧
    (∀ b config tr msg, w.readFile "client_secret.json" = .ok b →
      w.configFromJSON b = .ok config →
      getClient w config [.readFile "client_secret.json"] = (tr, .fatal msg) →
      (run w).2 = .fatal msg ∧ (run w).1.filter Event.isInsert = []) ∧
    (∀ config homeDir tr code err, w.userCurrent = .ok homeDir →
      (w.openFile (cacheFileOf homeDir) ≠ none ∨ (w.decode (cacheFileOf homeDir)).2 ≠ none) →
      w.scan = .ok code → w.exchange config code = .error err →
      (getClient w config tr).2 = .fatal ("Unable to retrieve token from web " ++ err)) ∧
    (∀ config homeDir tr code tok err, w.userCurrent = .ok homeDir →
      (w.openFile (cacheFileOf homeDir) ≠ none ∨ (w.decode (cacheFileOf homeDir)).2 ≠ none) →
      w.scan = .ok code → w.exchange config code = .ok tok →
      w.create (cacheFileOf homeDir) = some err →
      (getClient w config tr).2 = .fatal ("Unable to cache oauth token: " ++ err)) ∧
    (∀ b config tr client err, w.readFile "client_secret.json" = .ok b →
      w.configFromJSON b = .ok config →
      getClient w config [.readFile "client_secret.json"] = (tr, .ok client) →
      w.calendarNew client = some err →
      (run w).2 = .fatal ("Unable to retrieve calendar Client " ++ err) ∧
      (run w).1.filter Event.isInsert = []) ∧
    (w.args.length ≠ 1 →
      (∃ msg, (run w).2 = .fatal msg) ∧ (run w).1.filter Event.isInsert = []) ∧
    (∀ b config tr client arg, w.readFile "client_secret.json" = .ok b →
      w.configFromJSON b = .ok config →
      getClient w config [.readFile "client_secret.json"] = (tr, .ok client) →
      w.calendarNew client = none → w.args = [arg] → arg ∉ days →
      (run w).2 = .fatal dayDiagnostic ∧ (run w).1.filter Event.isInsert = []) ∧
    (∀ b config tr client arg dateString err, w.readFile "client_secret.json" = .ok b →
      w.configFromJSON b = .ok config →
      getClient w config [.readFile "client_secret.json"] = (tr, .ok client) →
      w.calendarNew client = none → w.args = [arg] →
      getDateString w.osArgs w.now = .ok dateString →
      w.insert client (calendarIdFromFile w) (mkEvent dateString) = .error err →
      (run w).2 = .fatal ("Unable to create event. " ++ err ++ "\n")) ∧
    (∀ msg, (run w).2 = .fatal msg → exitStatus (run w).2 = 1) := by
  refine ⟨?_, ?_, ?_, ?_, ?_, ?_, ?_, ?_, ?_, ?_⟩
  · intro err h
    rw [run_readErr w err h]; exact ⟨rfl, rfl⟩
  · intro b err h1 h2
    rw [run_configErr w b err h1 h2]; exact ⟨rfl, rfl⟩
  · intro b config tr msg h1 h2 h3
    rw [run_clientFatal w b msg config tr h1 h2 h3]
    exact ⟨rfl, getClient_trace_no_insert w config _ tr _ h3 rfl⟩
  · intro config homeDir tr code err hU hF hS hE
    rw [getClient_exchangeErr w config homeDir tr code err hS hE hU hF]
  · intro config homeDir tr code tok err hU hF hS hE hC
    rw [getClient_createErr w config homeDir tr code err tok hS hE hC hU hF]
  · intro b config tr client err h1 h2 h3 h4
    rw [run_newErr w b err config tr client h1 h2 h3 h4]
    exact ⟨rfl, getClient_trace_no_insert w config _ tr _ h3 rfl⟩
  · intro h
    exact ⟨(run_wrongArgs_summary w h).2, (run_wrongArgs_summary w h).1⟩
  · intro b config tr client arg h1 h2 h3 h4 h5 h6
    rw [run_oneArg w b arg config tr client h1 h2 h3 h4 h5,
      getDateString_other w.arg0 arg w.now h6]
    exact ⟨rfl, getClient_trace_no_insert w config _ tr _ h3 rfl⟩
  · intro b config tr client arg dateString err h1 h2 h3 h4 h5 h6 h7
    rw [World.osArgs, h5] at h6
    rw [run_oneArg w b arg config tr client h1 h2 h3 h4 h5, h6]
    simp only [h7]
  · intro msg h
    rw [h]; rfl

/-- Witness: the run in which the server refuses the code stops with exit
status 1 and sends no insert request. -/
theorem failures_that_stop_the_run_witness :
    (run (refusedRun ["mon"])).2 =
      .fatal "Unable to retrieve token from web oauth2: cannot fetch token: 400 Bad Request" ∧
    (run (refusedRun ["mon"])).1.filter Event.isInsert = [] ∧
    exitStatus (run (refusedRun ["mon"])).2 = 1 :=
  have h := failures_that_stop_the_run (refusedRun ["mon"])
  have h3 := h.2.2.1 "\x7b\"installed\":\x7b\x7d\x7d" sampleConfig
    ([.readFile "client_secret.json"] ++ lookEvents "/home/max" ++
      promptEvents (refusedRun ["mon"]) sampleConfig ++ [.exchange "4/0Ab"])
    "Unable to retrieve token from web oauth2: cannot fetch token: 400 Bad Request"
    rfl rfl (by decide)
  ⟨h3.1, h3.2, h.2.2.2.2.2.2.2.2.2 _ h3.1⟩

/-- When the seven days `today.AddDate(0, 0, i)`, `i` in 0..6, are in step
with the calendar (each falls on the calendar day `i` days after today's) and
none is the zero `Time`, every one of the seven codes given as the sole
argument gets the calendar date of a day `d = today.AddDate(0, 0, i)` with `i`
in 0..6, so today <= d <= today + 6 days, and the weekday name of `d`,
lowercased and cut to three letters, is the code. -/
theorem in_step_every_code_resolves (today : Time) (a0 code : String)
    (h : daysInStep today) (hz : noZeroDay today) (hc : code ∈ days) :
    ∃ (d : Time) (i : Nat), i < 7 ∧ d = today.AddDate 0 0 i ∧
      d.dayNumber = today.dayNumber + i ∧
      getDateString [a0, code] today = .ok (d.Format dateOnly) ∧
      sliceTo (strings.ToLower (Weekday.String d.Weekday)) 3 = .ok code := by
  obtain ⟨k, hk0, hk7, rfl⟩ := mem_days code hc
  obtain ⟨hlt, h1, h2⟩ := getDateString_in_step today a0 k h hz hk0 hk7
  refine ⟨_, _, hlt, rfl, h _ hlt, h1, ?_⟩
  rw [h2]
  exact key_of_weekday k hk0 hk7

/-- Witness: Wednesday 4 September 2024 in UTC, code `mon`. -/
theorem in_step_every_code_resolves_witness :
    daysInStep utcWednesday ∧ noZeroDay utcWednesday ∧ "mon" ∈ days ∧
    ∃ (d : Time) (i : Nat), i < 7 ∧ d = utcWednesday.AddDate 0 0 i ∧
      d.dayNumber = utcWednesday.dayNumber + i ∧
      getDateString ["wfh", "mon"] utcWednesday = .ok (d.Format dateOnly) ∧
      sliceTo (strings.ToLower (Weekday.String d.Weekday)) 3 = .ok "mon" :=
  ⟨by decide, by decide, by decide,
    in_step_every_code_resolves utcWednesday "wfh" "mon" (by decide) (by decide)
      (by decide)⟩

/-- For every current time, an argument that is none of the seven codes
stops `getDateString` with the "must be any of" diagnostic, and no date is
returned.  When the seven days `today.AddDate(0, 0, i)`, `i` in 0..6, are in
step with the calendar and none is the zero `Time`, `getDateString` returns a
date for each of the seven codes, so there it fails if and only if the code is
none of the seven. -/
theorem unrecognized_code_is_fatal (today : Time) (a0 arg : String) :
    (arg ∉ days → getDateString [a0, arg] today = .fatal dayDiagnostic) ∧
    (arg ∉ days → ∀ dateString, getDateString [a0, arg] today ≠ .ok dateString) ∧
    (daysInStep today → noZeroDay today →
      ((getDateString [a0, arg] today = .fatal dayDiagnostic ↔ arg ∉ days) ∧
        ((∃ dateString, getDateString [a0, arg] today = .ok dateString) ↔ arg ∈ days))) := by
  refine ⟨getDateString_other a0 arg today, ?_, fun h hz => ?_⟩
  · intro hne ds hds
    rw [getDateString_other a0 arg today hne] at hds
    exact absurd hds (by simp)
  have hyes : arg ∈ days → ∃ dateString, getDateString [a0, arg] today = .ok dateString := by
    intro hin
    obtain ⟨k, hk0, hk7, rfl⟩ := mem_days arg hin
    exact ⟨_, (getDateString_in_step today a0 k h hz hk0 hk7).2.1⟩
  refine ⟨⟨?_, getDateString_other a0 arg today⟩, ⟨?_, hyes⟩⟩
  · intro hf hin
    obtain ⟨ds, hds⟩ := hyes hin
    rw [hds] at hf
    exact absurd hf (by simp)
  · rintro ⟨ds, hds⟩
    by_contra hne
    rw [getDateString_other a0 arg today hne] at hds
    exact absurd hds (by simp)

/-- Witness: `Mon`, `monday`, `xyz` and the empty string are refused on
Wednesday 4 September 2024, 00:30 in Santiago, a week with a clock change;
`mon` is resolved on that Wednesday in UTC. -/
theorem unrecognized_code_is_fatal_witness :
    getDateString ["wfh", "Mon"] santiagoWednesday = .fatal dayDiagnostic ∧
    getDateString ["wfh", "monday"] santiagoWednesday = .fatal dayDiagnostic ∧
    getDateString ["wfh", "xyz"] santiagoWednesday = .fatal dayDiagnostic ∧
    getDateString ["wfh", ""] santiagoWednesday = .fatal dayDiagnostic ∧
    daysInStep utcWednesday ∧ noZeroDay utcWednesday ∧
    ∃ dateString, getDateString ["wfh", "mon"] utcWednesday = .ok dateString :=
  ⟨(unrecognized_code_is_fatal santiagoWednesday "wfh" "Mon").1 (by decide),
    (unrecognized_code_is_fatal santiagoWednesday "wfh" "monday").1 (by decide),
    (unrecognized_code_is_fatal santiagoWednesday "wfh" "xyz").1 (by decide),
    (unrecognized_code_is_fatal santiagoWednesday "wfh" "").1 (by decide),
    by decide, by decide,
    ((unrecognized_code_is_fatal utcWednesday "wfh" "mon").2.2 (by decide) (by decide)).2.2
      (by decide)⟩

/-- On a Wednesday whose day five days ahead, `today.AddDate(0, 0, 5)`, falls
on the calendar day five days after today's and is not the zero `Time`, and
whose day six days ahead is not taken for a Monday too, a run with the single
argument `mon` that gets through start-up resolves that Monday and sends
exactly one insert request; the event sent has `Start.Date` and `End.Date`
identical and equal to the date string of that Monday.  Nothing is asked of
the days of offsets 0..4. -/
theorem wednesday_mon_is_five_days_ahead (w : World) (b : String) (config : Config)
    (tr : List Event) (client : Client)
    (hRead : w.readFile "client_secret.json" = .ok b)
    (hConfig : w.configFromJSON b = .ok config)
    (hClient : getClient w config [.readFile "client_secret.json"] = (tr, .ok client))
    (hNew : w.calendarNew client = none)
    (hArgs : w.args = ["mon"])
    (hWed : Weekday.String w.now.Weekday = "Wednesday")
    (h5 : (w.now.AddDate 0 0 5).dayNumber = w.now.dayNumber + 5)
    (h6 : Weekday.String (w.now.AddDate 0 0 6).Weekday ≠ "Monday")
    (hz : (w.now.AddDate 0 0 5).IsZero = false) :
    getDateString w.osArgs w.now = .ok ((w.now.AddDate 0 0 5).Format dateOnly) ∧
    Weekday.String (w.now.AddDate 0 0 5).Weekday = "Monday" ∧
    ∃ event, (run w).1.filter Event.isInsert = [.insert (calendarIdFromFile w) event] ∧
      event.Start.Date = (w.now.AddDate 0 0 5).Format dateOnly ∧
      event.End.Date = event.Start.Date := by
  have hw : w.now.Weekday = 3 := weekday_of_wednesday w.now hWed
  have hm : (w.now.AddDate 0 0 5).Weekday = 1 := by
    have e1 := Weekday_dayNumber (w.now.AddDate 0 0 5)
    have e2 := Weekday_dayNumber w.now
    rw [h5] at e1
    omega
  have hr6 := absWeekday_range (w.now.AddDate 0 0 6).abs
  have hg : (dayMapOf w.now).get "mon" = w.now.AddDate 0 0 5 :=
    dayMapOf_get_five w.now "mon" (by rw [show (w.now.AddDate 0 0 (5 : Nat)).Weekday = 1 from hm]; rfl)
      (dayCode_ne_mon _ hr6.1 hr6.2 h6)
  have hd : getDateString [w.arg0, "mon"] w.now =
      .ok ((w.now.AddDate 0 0 5).Format dateOnly) := by
    rw [getDateString_eq, hg, hz]
    rfl
  have hI := getClient_trace_no_insert w config _ tr _ hClient rfl
  refine ⟨by rw [World.osArgs, hArgs]; exact hd, by rw [hm]; rfl,
    mkEvent ((w.now.AddDate 0 0 5).Format dateOnly), ?_, rfl, rfl⟩
  rw [run_oneArg w b "mon" config tr client hRead hConfig hClient hNew hArgs, hd]
  cases hIns : w.insert client (calendarIdFromFile w)
      (mkEvent ((w.now.AddDate 0 0 5).Format dateOnly)) with
  | error err => simp [hIns, List.filter_append, hI, Event.isInsert]
  | ok link => simp [hIns, List.filter_append, hI, Event.isInsert]

/-- Witness: Wednesday 4 September 2024, 00:30 in Santiago, the week in which
the Sunday's reading is skipped: a run with the argument `mon` inserts an event
for Monday 2024-09-09. -/
theorem wednesday_mon_is_five_days_ahead_witness :
    getDateString (runAt santiagoWednesday ["mon"]).osArgs (runAt santiagoWednesday ["mon"]).now =
      .ok "2024-09-09" ∧
    (run (runAt santiagoWednesday ["mon"])).1.filter Event.isInsert =
      [.insert "team@group.calendar.google.com" (mkEvent "2024-09-09")] ∧
    (mkEvent "2024-09-09").Start.Date = "2024-09-09" ∧
    (mkEvent "2024-09-09").End.Date = "2024-09-09" :=
  have h := wednesday_mon_is_five_days_ahead (runAt santiagoWednesday ["mon"])
    "\x7b\"installed\":\x7b\x7d\x7d"
    sampleConfig ([.readFile "client_secret.json"] ++ lookEvents "/home/max")
    ⟨sampleConfig, some sampleToken⟩ rfl rfl (by decide) rfl rfl (by decide) (by decide)
    (by decide) (by decide)
  ⟨h.1.trans (by decide), by decide, rfl, rfl⟩

/-- The test for a missing key is `IsZero` on the value read from the map:
at the zero `Time`, a Monday whose seven days are in step with the calendar,
the entry of `mon` is the zero `Time` itself and is taken for a missing one. -/
theorem zero_time_entry_counts_as_missing :
    "mon" ∈ days ∧
    daysInStep Time.zero ∧
    Weekday.String Time.zero.Weekday = "Monday" ∧
    (makeDayMap Time.zero).bind (fun dayMap => .ok (dayMap.get "mon")) = .ok Time.zero ∧
    getDateString ["wfh", "mon"] Time.zero = .fatal dayDiagnostic := by
  decide

end Wfh
